import Mathlib

/-!
Verification of the `boost_intrusive_pool` memory pool
(`src/include/boost_intrusive_pool.hpp`).

The pool hands out intrusively reference-counted items drawn from a chain of
arenas threaded by a singly linked free list.  We embed the pool state
shallowly: items are records of the envelope fields
(`m_boost_intrusive_pool_refcount`, `m_boost_intrusive_pool_next`,
`m_boost_intrusive_pool_owner`), the arena chain is the flat list of all slots
in allocation order together with the list of arena sizes, and pointers are
`Option Nat` indices into that flat list.
-/

namespace MemPool

/-- One pooled item's envelope fields (class `boost_intrusive_pool_item`):
`refcount` is `m_boost_intrusive_pool_refcount`, `next` is
`m_boost_intrusive_pool_next` (an index into the pool's slot list, `none` =
`nullptr`), and `hasOwner` records whether `m_boost_intrusive_pool_owner` is
non-null. -/
structure Item where
  refcount : Nat
  next : Option Nat
  hasOwner : Bool
deriving Repr, DecidableEq

instance : Inhabited Item := ⟨⟨0, none, false⟩⟩

/-- State of `boost_intrusive_pool<Item>::impl`.  `m_items` is the
concatenation of all arena storages in chain order (so the last element of
`m_items` is the last slot of `m_last_arena`); `m_arenas` is the list of the
arena sizes in chain order (standing for the `m_first_arena` → … →
`m_last_arena` chain). The `m_recycle_method`/`m_recycle_fn` configuration is
omitted: the recycle hooks act only on the pooled object payload, never on the
envelope or pool bookkeeping modelled here. -/
structure PoolImpl where
  m_enlarge_step : Nat
  m_max_size : Nat
  m_items : List Item
  m_arenas : List Nat
  m_first_free_item : Option Nat
  m_memory_exhausted : Bool
  m_trigger_self_destruction : Bool
  m_free_count : Nat
  m_inuse_count : Nat
  m_total_count : Nat
deriving Repr, DecidableEq

/-- Dereference slot `i` (out-of-range reads return the all-zero default;
such reads never occur in reachable states). -/
def getItem (items : List Item) (i : Nat) : Item := items.getD i default

/-- Update slot `i` by `f`. -/
def updItem (items : List Item) (i : Nat) (f : Item → Item) : List Item :=
  items.set i (f (getItem items i))

/-- Models `item->_refcounted_item_set_next(v)` on slot `i`. -/
def setNext (items : List Item) (i : Nat) (v : Option Nat) : List Item :=
  updItem items i fun it => { it with next := v }

/-- Models `intrusive_ptr_add_ref` on slot `i`. -/
def addRef (items : List Item) (i : Nat) : List Item :=
  updItem items i fun it => { it with refcount := it.refcount + 1 }

/-- Models `--x->m_boost_intrusive_pool_refcount` on slot `i`. -/
def decRef (items : List Item) (i : Nat) : List Item :=
  updItem items i fun it => { it with refcount := it.refcount - 1 }

/-- Models `item->_refcounted_item_set_pool(...)` on slot `i` (only whether the
owner pointer is null is tracked). -/
def setOwner (items : List Item) (i : Nat) (b : Bool) : List Item :=
  updItem items i fun it => { it with hasOwner := b }

/-- The slots created by `boost_intrusive_pool_arena(arena_size, p)`
(constructor, hpp lines 244-260): `arena_size` default-constructed items, the
owner pointer stamped on each, slot `k` linked to slot `k+1` and the last slot
linked to `nullptr`.  `base` is the flat index at which this arena's storage
starts. -/
def arenaItems (base size : Nat) : List Item :=
  (List.range size).map fun k =>
    { refcount := 0
      next := if k + 1 < size then some (base + k + 1) else none
      hasOwner := true }

/-- Models `impl::impl(enlarge_size, max_size, method, recycle)` (hpp lines
521-546). -/
def implNew (enlarge_size max_size : Nat) : PoolImpl :=
  { m_enlarge_step := enlarge_size
    m_max_size := max_size
    m_items := []
    m_arenas := []
    m_first_free_item := none
    m_memory_exhausted := false
    m_trigger_self_destruction := false
    m_free_count := 0
    m_inuse_count := 0
    m_total_count := 0 }

/-- Models `impl::get_effective_enlarge_step()` (hpp lines 575-581). -/
def get_effective_enlarge_step (p : PoolImpl) : Nat :=
  if p.m_enlarge_step > 0 ∧ p.m_max_size > 0 ∧
      p.m_total_count + p.m_enlarge_step > p.m_max_size then
    p.m_max_size - p.m_total_count
  else
    p.m_enlarge_step

/-- Models `impl::enlarge(arena_size)` (hpp lines 639-666).  `mallocOk` is the
outcome of the underlying `new boost_intrusive_pool_arena` allocation; on
failure the function returns `false` having changed nothing.  On success: the
new arena is linked after `m_last_arena` (`set_next_arena`, which points the
last slot of the previous last arena at the new arena's first slot), the free
list head is set to the new arena's first slot if it was null, and the free
and total counters grow by `arena_size`. -/
def enlarge (p : PoolImpl) (arena_size : Nat) (mallocOk : Bool) : Bool × PoolImpl :=
  if !mallocOk then (false, p)
  else
    let base := p.m_items.length
    let items1 := p.m_items ++ arenaItems base arena_size
    let items2 := if p.m_arenas.isEmpty then items1
                  else setNext items1 (base - 1) (some base)
    { fst := true
      snd :=
      { p with
        m_items := items2
        m_arenas := p.m_arenas ++ [arena_size]
        m_first_free_item :=
          match p.m_first_free_item with
          | none => some base
          | some i => some i
        m_free_count := p.m_free_count + arena_size
        m_total_count := p.m_total_count + arena_size } }

/-- The pop-and-maybe-proactively-grow part of
`impl::allocate_safe_get_recycled_item()` (hpp lines 601-636): pop the free
list head, update the counters, advance the head; if the head became null and
the pool may still grow, grow by one effective step (setting
`m_memory_exhausted` if the effective step is zero or the growth fails);
finally unlink the popped item. -/
def alloc_pop (p : PoolImpl) (ok2 : Bool) : Option Nat × PoolImpl :=
  match p.m_first_free_item with
  | none => (none, p)
  | some idx =>
    let p1 := { p with m_free_count := p.m_free_count - 1
                       m_inuse_count := p.m_inuse_count + 1 }
    let nxt := (getItem p1.m_items idx).next
    let p2 := { p1 with m_first_free_item := nxt }
    let p3 :=
      if nxt = none ∧ p2.m_enlarge_step > 0 then
        let step := get_effective_enlarge_step p2
        if step = 0 then { p2 with m_memory_exhausted := true }
        else
          match enlarge p2 step ok2 with
          | (false, q) => { q with m_memory_exhausted := true }
          | (true, q) => q
      else p2
    (some idx, { p3 with m_items := setNext p3.m_items idx none })

/-- Models `impl::allocate_safe_get_recycled_item()` (hpp lines 583-637).  `ok1` and
`ok2` are the outcomes of the underlying arena allocations for the
grow-on-empty step and the proactive growth step respectively. -/
def allocate_safe_get_recycled_item (p : PoolImpl) (ok1 ok2 : Bool) :
    Option Nat × PoolImpl :=
  if p.m_free_count = 0 then
    let step := get_effective_enlarge_step p
    if step = 0 then (none, { p with m_memory_exhausted := true })
    else
      match enlarge p step ok1 with
      | (false, q) => (none, { q with m_memory_exhausted := true })
      | (true, q) => alloc_pop q ok2
  else alloc_pop p ok2

/-- Models `boost_intrusive_pool::allocate()` (hpp lines 389-403): get a recycled
item and wrap it into an `item_ptr`, whose construction runs
`intrusive_ptr_add_ref` (refcount 0 → 1). -/
def pool_allocate (p : PoolImpl) (ok1 ok2 : Bool) : Option Nat × PoolImpl :=
  match allocate_safe_get_recycled_item p ok1 ok2 with
  | (none, q) => (none, q)
  | (some idx, q) => (some idx, { q with m_items := addRef q.m_items idx })

/-- Models `impl::recycle(pitem_base)` (hpp lines 668-728): run the configured
recycle hook (which touches only the payload, not the envelope), push the item
on the free list head, update counters, and when self-destruction is pending
sever the item's owner back-reference. -/
def recycle (p : PoolImpl) (idx : Nat) : PoolImpl :=
  let items1 := setNext p.m_items idx p.m_first_free_item
  let items2 := if p.m_trigger_self_destruction then setOwner items1 idx false
                else items1
  { p with
    m_items := items2
    m_first_free_item := some idx
    m_free_count := p.m_free_count + 1
    m_inuse_count := p.m_inuse_count - 1 }

/-- Models `intrusive_ptr_release(x)` (hpp lines 220-232) for a slot of this pool:
decrement the refcount; at zero, recycle into the owning pool when the owner
back-reference is set (in-pool slots are never `delete`d; the `delete` branch
concerns only items living outside any pool, see `releaseAction`). -/
def intrusive_ptr_release (p : PoolImpl) (idx : Nat) : PoolImpl :=
  let items1 := decRef p.m_items idx
  let p1 := { p with m_items := items1 }
  if (getItem items1 idx).refcount = 0 then
    if (getItem items1 idx).hasOwner then recycle p1 idx
    else p1
  else p1

/-- What `intrusive_ptr_release(x)` (hpp lines 220-232) does with the item
itself: nothing while references remain; at refcount zero, either
`x->m_boost_intrusive_pool_owner->recycle(x)` or `delete x` depending on
whether the owner back-reference is null. -/
inductive ReleaseAction where
  | keepAlive
  | recycleToPool
  | deleteItem
deriving Repr, DecidableEq

/-- Single-item view of `intrusive_ptr_release` (hpp lines 220-232). -/
def releaseAction (it : Item) : Item × ReleaseAction :=
  let it1 := { it with refcount := it.refcount - 1 }
  if it1.refcount = 0 then
    if it1.hasOwner then (it1, ReleaseAction.recycleToPool)
    else (it1, ReleaseAction.deleteItem)
  else (it1, ReleaseAction.keepAlive)

/-- Precondition asserted by `boost_intrusive_pool::init` (hpp lines
368-370). -/
def init_precond (init_size enlarge_size max_size : Nat) : Prop :=
  0 < init_size ∧
    (max_size = 0 ∨ (init_size ≤ max_size ∧ 0 < enlarge_size))

instance (i e m : Nat) : Decidable (init_precond i e m) := by
  unfold init_precond; infer_instance

/-- Models `boost_intrusive_pool::init` (hpp lines 364-376): build a fresh `impl`
and do the initial (always succeeding) `enlarge(init_size)`. -/
def pool_init (init_size enlarge_size max_size : Nat) : PoolImpl :=
  (enlarge (implNew enlarge_size max_size) init_size true).snd

-- impl getters (hpp lines 795-830)

def PoolImpl.empty (p : PoolImpl) : Bool := p.m_free_count == p.m_total_count

def PoolImpl.is_bounded (p : PoolImpl) : Bool := p.m_enlarge_step == 0

def PoolImpl.is_limited (p : PoolImpl) : Bool :=
  p.m_enlarge_step == 0 || p.m_max_size != 0

def PoolImpl.is_memory_exhausted (p : PoolImpl) : Bool := p.m_memory_exhausted

def PoolImpl.capacity (p : PoolImpl) : Nat := p.m_total_count

def PoolImpl.max_size (p : PoolImpl) : Nat :=
  if p.m_enlarge_step != 0 then p.m_max_size else p.m_total_count

def PoolImpl.unused_count (p : PoolImpl) : Nat := p.m_free_count

def PoolImpl.inuse_count (p : PoolImpl) : Nat := p.m_inuse_count

/-- Models `impl::enlarge_steps_done()`, which walks the arena chain counting arenas (hpp
lines 819-830); in this model that chain is `m_arenas`. -/
def PoolImpl.enlarge_steps_done (p : PoolImpl) : Nat := p.m_arenas.length

-- The outer `boost_intrusive_pool` object: `m_pool` is null until `init`.

abbrev OuterPool := Option PoolImpl

-- outer getters (hpp lines 489-511)

def outer_empty : OuterPool → Bool
  | some p => p.empty
  | none => true

def outer_is_bounded : OuterPool → Bool
  | some p => p.is_bounded
  | none => false

def outer_is_limited : OuterPool → Bool
  | some p => p.is_limited
  | none => false

def outer_is_memory_exhausted : OuterPool → Bool
  | some p => p.is_memory_exhausted
  | none => false

def outer_capacity : OuterPool → Nat
  | some p => p.capacity
  | none => 0

def outer_max_size : OuterPool → Nat
  | some p => p.max_size
  | none => 0

def outer_unused_count : OuterPool → Nat
  | some p => p.unused_count
  | none => 0

def outer_inuse_count : OuterPool → Nat
  | some p => p.inuse_count
  | none => 0

def outer_enlarge_steps_done : OuterPool → Nat
  | some p => p.enlarge_steps_done
  | none => 0

/-- Models `boost_intrusive_pool::clear()` (hpp lines 458-476): on an uninitialized
pool do nothing; otherwise remember the configuration, trigger
self-destruction of the old `impl` and install a brand-new (empty) one. -/
def outer_clear : OuterPool → OuterPool
  | none => none
  | some p => some (implNew p.m_enlarge_step p.m_max_size)

/-! ## Reachability and the pool's structural invariant -/

/-- The indices of the slots whose refcount is zero (the slots that the
free list must account for). -/
def freeIndices (p : PoolImpl) : List Nat :=
  (List.range p.m_items.length).filter fun i => (getItem p.m_items i).refcount == 0

/-- Relation `Chain items head l`: starting from pointer `head` and following the
items' `next` links visits exactly the slots `l` and ends at `nullptr`. -/
inductive Chain (items : List Item) : Option Nat → List Nat → Prop where
  | nil : Chain items none []
  | cons {i : Nat} {l : List Nat} (hlt : i < items.length)
      (htail : Chain items (getItem items i).next l) : Chain items (some i) (i :: l)

/-- Shape of the free list: it is a `nullptr`-terminated chain from
`m_first_free_item`, visits exactly the refcount-zero slots, has
`m_free_count` elements, and (unless the pool can no longer grow) ends at the
last slot of the last arena. -/
structure FreeListInv (p : PoolImpl) (fl : List Nat) : Prop where
  chain : Chain p.m_items p.m_first_free_item fl
  perm : fl.Perm (freeIndices p)
  len : fl.length = p.m_free_count
  tail_last : fl ≠ [] →
    fl.getLast? = some (p.m_items.length - 1) ∨ get_effective_enlarge_step p = 0

/-- The invariant holding of every initialized pool between operations. -/
structure WF (p : PoolImpl) : Prop where
  freelist : ∃ fl, FreeListInv p fl
  inuse_unlinked : ∀ i, i < p.m_items.length →
    (getItem p.m_items i).refcount ≠ 0 → (getItem p.m_items i).next = none
  owners : ∀ i, i < p.m_items.length → (getItem p.m_items i).hasOwner = true
  items_total : p.m_items.length = p.m_total_count
  counts : p.m_free_count + p.m_inuse_count = p.m_total_count
  arenas_total : p.m_arenas.sum = p.m_total_count
  head_valid : p.m_first_free_item = none →
    p.m_enlarge_step = 0 ∨ p.m_memory_exhausted = true
  exhausted_step : p.m_free_count = 0 → get_effective_enlarge_step p = 0
  no_self_destruct : p.m_trigger_self_destruction = false

/-- One externally triggerable operation on an initialized pool: an
`allocate()` call (with the underlying arena allocations succeeding, as
`operator new` never returns null), the copy of a live handle
(`intrusive_ptr_add_ref`), or the drop of a live handle
(`intrusive_ptr_release`, which recycles at refcount zero). -/
inductive Step : PoolImpl → PoolImpl → Prop where
  | alloc (p : PoolImpl) : Step p (pool_allocate p true true).snd
  | copy (p : PoolImpl) (idx : Nat) (h : (getItem p.m_items idx).refcount ≠ 0) :
      Step p { p with m_items := addRef p.m_items idx }
  | drop (p : PoolImpl) (idx : Nat) (h : (getItem p.m_items idx).refcount ≠ 0) :
      Step p (intrusive_ptr_release p idx)

/-- States reachable from `p0` by a sequence of pool operations. -/
inductive ReachableFrom (p0 : PoolImpl) : PoolImpl → Prop where
  | refl : ReachableFrom p0 p0
  | step {p q : PoolImpl} (hr : ReachableFrom p0 p) (hs : Step p q) :
      ReachableFrom p0 q

/-- States of some initialized pool after a sequence of operations. -/
def Reachable (p : PoolImpl) : Prop :=
  ∃ i e m, init_precond i e m ∧ ReachableFrom (pool_init i e m) p

/-- Iterates `n` successive `allocate()` calls. -/
def allocN (p : PoolImpl) : Nat → PoolImpl
  | 0 => p
  | n + 1 => (pool_allocate (allocN p n) true true).snd

/-- A sequence of pool operations from `p0` that keeps the in-use count
strictly below `C` after every operation. -/
inductive BoundedSeq (C : Nat) (p0 : PoolImpl) : PoolImpl → Prop where
  | refl : BoundedSeq C p0 p0
  | step {q r : PoolImpl} (h1 : BoundedSeq C p0 q) (h2 : Step q r)
      (hbound : r.m_inuse_count < C) : BoundedSeq C p0 r

end MemPool

namespace MemPool

/-! ## Basic facts about slot access and update -/

theorem getItem_eq (items : List Item) (i : Nat) :
    getItem items i = items[i]?.getD default := by
  simp [getItem, List.getD_eq_getElem?_getD]

theorem length_updItem (items : List Item) (i : Nat) (f : Item → Item) :
    (updItem items i f).length = items.length := by
  simp [updItem]

theorem getItem_updItem_ne {i j : Nat} (items : List Item) (f : Item → Item)
    (h : j ≠ i) : getItem (updItem items i f) j = getItem items j := by
  simp [updItem, getItem_eq, List.getElem?_set_ne (Ne.symm h)]

theorem getItem_updItem_self {i : Nat} (items : List Item) (f : Item → Item)
    (h : i < items.length) :
    getItem (updItem items i f) i = f (getItem items i) := by
  simp [updItem, getItem_eq, List.getElem?_set_self h]

theorem getItem_append_left {items ys : List Item} {i : Nat}
    (h : i < items.length) : getItem (items ++ ys) i = getItem items i := by
  simp [getItem_eq, List.getElem?_append_left h]

theorem getItem_append_right (items ys : List Item) (k : Nat) :
    getItem (items ++ ys) (items.length + k) = getItem ys k := by
  simp [getItem_eq, List.getElem?_append_right (Nat.le_add_right _ _)]

theorem getItem_of_le {items : List Item} {i : Nat} (h : items.length ≤ i) :
    getItem items i = default := by
  simp [getItem_eq, List.getElem?_eq_none h]

theorem lt_of_refcount_ne_zero {items : List Item} {i : Nat}
    (h : (getItem items i).refcount ≠ 0) : i < items.length := by
  by_contra hge
  rw [getItem_of_le (Nat.le_of_not_lt hge)] at h
  exact h rfl

theorem length_arenaItems (base size : Nat) :
    (arenaItems base size).length = size := by
  simp [arenaItems]

theorem getItem_arenaItems {k size : Nat} (base : Nat) (h : k < size) :
    getItem (arenaItems base size) k =
      ⟨0, if k + 1 < size then some (base + k + 1) else none, true⟩ := by
  simp [arenaItems, getItem_eq, List.getElem?_map, List.getElem?_range h]

/-! ## Facts about free-list chains -/

theorem chain_none {items : List Item} {l : List Nat}
    (hc : Chain items none l) : l = [] := by
  cases hc; rfl

theorem chain_some {items : List Item} {i : Nat} {l : List Nat}
    (hc : Chain items (some i) l) :
    ∃ t, l = i :: t ∧ i < items.length ∧ Chain items (getItem items i).next t := by
  cases hc with
  | cons hlt htail => exact ⟨_, rfl, hlt, htail⟩

theorem chain_mem_lt {items : List Item} {ff : Option Nat} {l : List Nat}
    (hc : Chain items ff l) : ∀ i ∈ l, i < items.length := by
  induction hc with
  | nil => intro i hi; cases hi
  | cons hlt _ ih =>
    intro j hj
    rcases List.mem_cons.mp hj with h | h
    · exact h ▸ hlt
    · exact ih j h

theorem chain_congr {items items' : List Item} {ff : Option Nat} {l : List Nat}
    (hc : Chain items ff l)
    (hlt : ∀ i ∈ l, i < items'.length)
    (hnext : ∀ i ∈ l, (getItem items' i).next = (getItem items i).next) :
    Chain items' ff l := by
  induction hc with
  | nil => exact Chain.nil
  | @cons i t hl ht ih =>
    refine Chain.cons (hlt i (List.mem_cons_self i t)) ?_
    rw [hnext i (List.mem_cons_self i t)]
    exact ih (fun j hj => hlt j (List.mem_cons_of_mem i hj))
      (fun j hj => hnext j (List.mem_cons_of_mem i hj))

theorem chain_seq (full : List Item) :
    ∀ (size base : Nat), 0 < size →
    (∀ k, k < size → base + k < full.length ∧
      (getItem full (base + k)).next =
        if k + 1 < size then some (base + k + 1) else none) →
    Chain full (some base) (List.range' base size) := by
  intro size
  induction size with
  | zero => intro base h; omega
  | succ n ih =>
    intro base _ hslot
    have h0 := hslot 0 (Nat.succ_pos n)
    rw [List.range'_succ]
    refine Chain.cons (by simpa using h0.1) ?_
    have hn0 : (getItem full base).next =
        if 0 + 1 < n + 1 then some (base + 0 + 1) else none := by
      simpa using h0.2
    rcases Nat.eq_zero_or_pos n with hn | hn
    · subst hn
      simp at hn0
      rw [hn0]
      simpa using Chain.nil
    · have : (0 : Nat) + 1 < n + 1 := by omega
      rw [if_pos this] at hn0
      simp only [Nat.add_zero] at hn0
      rw [hn0]
      exact ih (base + 1) hn (fun k hk => by
        have hmain := hslot (k + 1) (by omega)
        have he : base + (k + 1) = base + 1 + k := by omega
        rw [he] at hmain
        refine ⟨hmain.1, ?_⟩
        rw [hmain.2]
        by_cases hc : k + 1 < n
        · rw [if_pos (show k + 1 + 1 < n + 1 by omega), if_pos hc]
        · rw [if_neg (show ¬(k + 1 + 1 < n + 1) by omega), if_neg hc])

theorem range'_getLast? (n : Nat) :
    ∀ s : Nat, 0 < n → (List.range' s n).getLast? = some (s + n - 1) := by
  intro s h
  rw [List.getLast?_range', if_neg (by omega)]

/-! ## Permutation bookkeeping for the refcount-zero index set -/

theorem filter_perm_flip {l : List Nat} {p q : Nat → Bool} {idx : Nat}
    (hnd : l.Nodup) (hmem : idx ∈ l) (hp : p idx = true) (hq : q idx = false)
    (hagree : ∀ j ∈ l, j ≠ idx → q j = p j) :
    (l.filter p).Perm (idx :: l.filter q) := by
  induction l with
  | nil => cases hmem
  | cons a t ih =>
    have hnd' := List.nodup_cons.mp hnd
    rcases List.mem_cons.mp hmem with heq | hmem'
    · subst heq
      rw [List.filter_cons_of_pos hp, List.filter_cons_of_neg (by simp [hq])]
      have : t.filter p = t.filter q := by
        refine List.filter_congr ?_
        intro j hj
        exact (hagree j (List.mem_cons_of_mem _ hj)
          (fun hji => hnd'.1 (hji ▸ hj))).symm
      rw [this]
    · have hne : a ≠ idx := fun h => hnd'.1 (h ▸ hmem')
      have hqa : q a = p a := hagree a (List.mem_cons_self a t) hne
      have ihh := ih hnd'.2 hmem'
        (fun j hj hne' => hagree j (List.mem_cons_of_mem a hj) hne')
      by_cases hpa : p a = true
      · rw [List.filter_cons_of_pos hpa,
          List.filter_cons_of_pos (hqa.trans hpa)]
        exact (ihh.cons a).trans (List.Perm.swap idx a _)
      · have hpa' : p a = false := by
          cases hval : p a
          · rfl
          · exact absurd hval hpa
        rw [List.filter_cons_of_neg (by simp [hpa']),
          List.filter_cons_of_neg (by simp [hqa, hpa'])]
        exact ihh

theorem length_filter_lt {α : Type} {p : α → Bool} {l : List α} {a : α}
    (hmem : a ∈ l) (hpa : p a = false) :
    (l.filter p).length < l.length := by
  induction l with
  | nil => cases hmem
  | cons b t ih =>
    rcases List.mem_cons.mp hmem with heq | hmem'
    · subst heq
      rw [List.filter_cons_of_neg (by simp [hpa])]
      exact Nat.lt_succ_of_le (List.length_filter_le p t)
    · by_cases hpb : p b = true
      · rw [List.filter_cons_of_pos hpb]
        simpa using Nat.succ_lt_succ (ih hmem')
      · have hpb' : p b = false := by
          cases hval : p b
          · rfl
          · exact absurd hval hpb
        rw [List.filter_cons_of_neg (by simp [hpb'])]
        exact Nat.lt_succ_of_lt (ih hmem')

end MemPool

namespace MemPool

/-! ## Unfolding lemmas for the allocation path -/

theorem enlarge_false (p : PoolImpl) (s : Nat) : enlarge p s false = (false, p) := rfl

theorem enlarge_true (p : PoolImpl) (s : Nat) :
    enlarge p s true =
      (true,
        { p with
          m_items :=
            if p.m_arenas.isEmpty then p.m_items ++ arenaItems p.m_items.length s
            else setNext (p.m_items ++ arenaItems p.m_items.length s)
              (p.m_items.length - 1) (some p.m_items.length)
          m_arenas := p.m_arenas ++ [s]
          m_first_free_item :=
            match p.m_first_free_item with
            | none => some p.m_items.length
            | some i => some i
          m_free_count := p.m_free_count + s
          m_total_count := p.m_total_count + s }) := rfl

theorem alloc_pop_none (p : PoolImpl) (ok2 : Bool)
    (hff : p.m_first_free_item = none) : alloc_pop p ok2 = (none, p) := by
  simp only [alloc_pop, hff]

theorem alloc_pop_no_grow (p : PoolImpl) (ok2 : Bool) (idx r : Nat)
    (hff : p.m_first_free_item = some idx)
    (hnext : (getItem p.m_items idx).next = some r) :
    alloc_pop p ok2 =
      (some idx,
        { p with
          m_items := setNext p.m_items idx none
          m_first_free_item := some r
          m_free_count := p.m_free_count - 1
          m_inuse_count := p.m_inuse_count + 1 }) := by
  simp only [alloc_pop, hff, hnext]
  simp

theorem alloc_pop_bounded (p : PoolImpl) (ok2 : Bool) (idx : Nat)
    (hff : p.m_first_free_item = some idx)
    (hnext : (getItem p.m_items idx).next = none)
    (hstep : p.m_enlarge_step = 0) :
    alloc_pop p ok2 =
      (some idx,
        { p with
          m_items := setNext p.m_items idx none
          m_first_free_item := none
          m_free_count := p.m_free_count - 1
          m_inuse_count := p.m_inuse_count + 1 }) := by
  simp only [alloc_pop, hff, hnext, hstep]
  simp

theorem alloc_pop_exhaust (p : PoolImpl) (ok2 : Bool) (idx : Nat)
    (hff : p.m_first_free_item = some idx)
    (hnext : (getItem p.m_items idx).next = none)
    (hstep : p.m_enlarge_step ≠ 0)
    (heff : get_effective_enlarge_step p = 0) :
    alloc_pop p ok2 =
      (some idx,
        { p with
          m_items := setNext p.m_items idx none
          m_first_free_item := none
          m_memory_exhausted := true
          m_free_count := p.m_free_count - 1
          m_inuse_count := p.m_inuse_count + 1 }) := by
  have heff2 : get_effective_enlarge_step
      { p with m_first_free_item := (none : Option Nat)
               m_free_count := p.m_free_count - 1
               m_inuse_count := p.m_inuse_count + 1 } = 0 := heff
  simp only [alloc_pop, hff, hnext]
  rw [if_pos ⟨trivial, Nat.pos_of_ne_zero hstep⟩]
  simp only [heff2]
  simp

theorem alloc_pop_grow_fail (p : PoolImpl) (idx : Nat)
    (hff : p.m_first_free_item = some idx)
    (hnext : (getItem p.m_items idx).next = none)
    (hstep : p.m_enlarge_step ≠ 0)
    (heff : get_effective_enlarge_step p ≠ 0) :
    alloc_pop p false =
      (some idx,
        { p with
          m_items := setNext p.m_items idx none
          m_first_free_item := none
          m_memory_exhausted := true
          m_free_count := p.m_free_count - 1
          m_inuse_count := p.m_inuse_count + 1 }) := by
  have heff2 : get_effective_enlarge_step
      { p with m_first_free_item := (none : Option Nat)
               m_free_count := p.m_free_count - 1
               m_inuse_count := p.m_inuse_count + 1 } ≠ 0 := heff
  simp only [alloc_pop, hff, hnext]
  rw [if_pos ⟨trivial, Nat.pos_of_ne_zero hstep⟩]
  rw [if_neg heff2]
  simp only [enlarge_false]

theorem alloc_pop_grow (p : PoolImpl) (idx : Nat)
    (hff : p.m_first_free_item = some idx)
    (hnext : (getItem p.m_items idx).next = none)
    (hstep : p.m_enlarge_step ≠ 0)
    (heff : get_effective_enlarge_step p ≠ 0) :
    alloc_pop p true =
      (some idx,
        { p with
          m_items :=
            setNext
              (if p.m_arenas.isEmpty then
                p.m_items ++ arenaItems p.m_items.length (get_effective_enlarge_step p)
              else
                setNext
                  (p.m_items ++ arenaItems p.m_items.length (get_effective_enlarge_step p))
                  (p.m_items.length - 1) (some p.m_items.length))
              idx none
          m_arenas := p.m_arenas ++ [get_effective_enlarge_step p]
          m_first_free_item := some p.m_items.length
          m_free_count := p.m_free_count - 1 + get_effective_enlarge_step p
          m_inuse_count := p.m_inuse_count + 1
          m_total_count := p.m_total_count + get_effective_enlarge_step p }) := by
  have heff2 : get_effective_enlarge_step
      { p with m_first_free_item := (none : Option Nat)
               m_free_count := p.m_free_count - 1
               m_inuse_count := p.m_inuse_count + 1 } = get_effective_enlarge_step p := rfl
  simp only [alloc_pop, hff, hnext]
  rw [if_pos ⟨trivial, Nat.pos_of_ne_zero hstep⟩]
  simp only [heff2]
  rw [if_neg heff]
  simp only [enlarge_true]

theorem allocate_safe_top_exhaust (p : PoolImpl) (ok1 ok2 : Bool)
    (hfc : p.m_free_count = 0) (heff : get_effective_enlarge_step p = 0) :
    allocate_safe_get_recycled_item p ok1 ok2 =
      (none, { p with m_memory_exhausted := true }) := by
  simp only [allocate_safe_get_recycled_item, hfc, heff]
  simp

theorem allocate_safe_top_fail (p : PoolImpl) (ok2 : Bool)
    (hfc : p.m_free_count = 0) (heff : get_effective_enlarge_step p ≠ 0) :
    allocate_safe_get_recycled_item p false ok2 =
      (none, { p with m_memory_exhausted := true }) := by
  simp only [allocate_safe_get_recycled_item, hfc]
  rw [if_pos trivial, if_neg heff]
  simp only [enlarge_false]
  simp [hfc]

theorem allocate_safe_top_grow (p : PoolImpl) (ok2 : Bool)
    (hfc : p.m_free_count = 0) (heff : get_effective_enlarge_step p ≠ 0) :
    allocate_safe_get_recycled_item p true ok2 =
      alloc_pop (enlarge p (get_effective_enlarge_step p) true).snd ok2 := by
  simp only [allocate_safe_get_recycled_item, hfc]
  rw [if_pos trivial, if_neg heff]
  simp only [enlarge_true]

theorem allocate_safe_pop (p : PoolImpl) (ok1 ok2 : Bool)
    (hfc : p.m_free_count ≠ 0) :
    allocate_safe_get_recycled_item p ok1 ok2 = alloc_pop p ok2 := by
  simp only [allocate_safe_get_recycled_item]
  rw [if_neg hfc]

theorem pool_allocate_of_safe_none (p : PoolImpl) (ok1 ok2 : Bool) (q : PoolImpl)
    (h : allocate_safe_get_recycled_item p ok1 ok2 = (none, q)) :
    pool_allocate p ok1 ok2 = (none, q) := by
  simp only [pool_allocate, h]

theorem pool_allocate_of_safe_some (p : PoolImpl) (ok1 ok2 : Bool)
    (idx : Nat) (q : PoolImpl)
    (h : allocate_safe_get_recycled_item p ok1 ok2 = (some idx, q)) :
    pool_allocate p ok1 ok2 = (some idx, { q with m_items := addRef q.m_items idx }) := by
  simp only [pool_allocate, h]

end MemPool

namespace MemPool

/-! ## Unfolding lemmas for the release path and small helpers -/

theorem get_effective_congr {p q : PoolImpl}
    (h1 : p.m_enlarge_step = q.m_enlarge_step)
    (h2 : p.m_max_size = q.m_max_size)
    (h3 : p.m_total_count = q.m_total_count) :
    get_effective_enlarge_step p = get_effective_enlarge_step q := by
  unfold get_effective_enlarge_step
  rw [h1, h2, h3]

theorem recycle_eq (p : PoolImpl) (idx : Nat)
    (htr : p.m_trigger_self_destruction = false) :
    recycle p idx =
      { p with
        m_items := setNext p.m_items idx p.m_first_free_item
        m_first_free_item := some idx
        m_free_count := p.m_free_count + 1
        m_inuse_count := p.m_inuse_count - 1 } := by
  simp [recycle, htr]

theorem release_recycles (p : PoolImpl) (idx : Nat)
    (hrc : (getItem p.m_items idx).refcount = 1)
    (hown : (getItem p.m_items idx).hasOwner = true) :
    intrusive_ptr_release p idx =
      recycle { p with m_items := decRef p.m_items idx } idx := by
  have hlt : idx < p.m_items.length :=
    lt_of_refcount_ne_zero (by rw [hrc]; exact one_ne_zero)
  have h1 : getItem (decRef p.m_items idx) idx =
      { getItem p.m_items idx with refcount := 0 } := by
    rw [decRef, getItem_updItem_self _ _ hlt, hrc]
  unfold intrusive_ptr_release
  simp only [h1, hown]
  simp

theorem release_decs (p : PoolImpl) (idx : Nat)
    (hrc : 2 ≤ (getItem p.m_items idx).refcount) :
    intrusive_ptr_release p idx = { p with m_items := decRef p.m_items idx } := by
  have hlt : idx < p.m_items.length :=
    lt_of_refcount_ne_zero (by omega)
  have h1 : getItem (decRef p.m_items idx) idx =
      { getItem p.m_items idx with
        refcount := (getItem p.m_items idx).refcount - 1 } := by
    rw [decRef, getItem_updItem_self _ _ hlt]
  unfold intrusive_ptr_release
  simp only [h1]
  rw [if_neg (show ¬((getItem p.m_items idx).refcount - 1 = 0) by omega)]

theorem alloc_pop_fst (p : PoolImpl) (ok2 : Bool) (idx : Nat)
    (hff : p.m_first_free_item = some idx) :
    (alloc_pop p ok2).fst = some idx := by
  simp only [alloc_pop, hff]

theorem pool_allocate_fst (p : PoolImpl) (ok1 ok2 : Bool) (idx : Nat)
    (h : (allocate_safe_get_recycled_item p ok1 ok2).fst = some idx) :
    (pool_allocate p ok1 ok2).fst = some idx := by
  rcases hsafe : allocate_safe_get_recycled_item p ok1 ok2 with ⟨r, q⟩
  rw [hsafe] at h
  simp only at h
  subst h
  simp [pool_allocate, hsafe]

theorem pool_allocate_snd_arenas (p : PoolImpl) (ok1 ok2 : Bool) :
    (pool_allocate p ok1 ok2).snd.m_arenas =
      (allocate_safe_get_recycled_item p ok1 ok2).snd.m_arenas := by
  rcases hsafe : allocate_safe_get_recycled_item p ok1 ok2 with ⟨r, q⟩
  cases r <;> simp [pool_allocate, hsafe]

theorem alloc_pop_arenas_mono (p : PoolImpl) (ok2 : Bool) :
    p.m_arenas.length ≤ (alloc_pop p ok2).snd.m_arenas.length := by
  rcases hff : p.m_first_free_item with _ | idx
  · rw [alloc_pop_none p ok2 hff]
  · rcases hnext : (getItem p.m_items idx).next with _ | r
    · by_cases hstep : p.m_enlarge_step = 0
      · rw [alloc_pop_bounded p ok2 idx hff hnext hstep]
      · by_cases heff : get_effective_enlarge_step p = 0
        · rw [alloc_pop_exhaust p ok2 idx hff hnext hstep heff]
        · cases ok2
          · rw [alloc_pop_grow_fail p idx hff hnext hstep heff]
          · rw [alloc_pop_grow p idx hff hnext hstep heff]
            simp
    · rw [alloc_pop_no_grow p ok2 idx r hff hnext]

end MemPool

namespace MemPool

/-- C10: on a default-constructed pool on which `init()` has never been
called (`m_pool == nullptr`), every introspection getter returns its benign
default — `empty()` is true; `is_bounded()`, `is_limited()` and
`is_memory_exhausted()` are false; `capacity()`, `max_size()`,
`unused_count()`, `inuse_count()` and `enlarge_steps_done()` are 0 — and
`clear()` is a no-op. -/
theorem uninitialized_pool_getters :
    outer_empty none = true ∧ outer_is_bounded none = false ∧
    outer_is_limited none = false ∧ outer_is_memory_exhausted none = false ∧
    outer_capacity none = 0 ∧ outer_max_size none = 0 ∧
    outer_unused_count none = 0 ∧ outer_inuse_count none = 0 ∧
    outer_enlarge_steps_done none = 0 ∧ outer_clear none = none :=
  ⟨rfl, rfl, rfl, rfl, rfl, rfl, rfl, rfl, rfl, rfl⟩

/-- C9: when an item's reference count goes from one to zero, the item is
destroyed with `delete` exactly when its pool back-reference is null;
otherwise it is recycled into its owning pool (and not deleted). -/
theorem release_last_handle (it : Item) (h : it.refcount = 1) :
    ((releaseAction it).snd = ReleaseAction.deleteItem ↔ it.hasOwner = false) ∧
    ((releaseAction it).snd = ReleaseAction.recycleToPool ↔ it.hasOwner = true) ∧
    (releaseAction it).fst.refcount = 0 := by
  obtain ⟨rc, nx, ow⟩ := it
  simp only at h
  subst h
  cases ow <;> simp [releaseAction]

/-- Witness for C9 at the concrete item ⟨refcount 1, next null, owner set⟩. -/
theorem release_last_handle_witness :
    (Item.mk 1 none true).refcount = 1 ∧
    (((releaseAction (Item.mk 1 none true)).snd = ReleaseAction.deleteItem ↔
        (Item.mk 1 none true).hasOwner = false) ∧
      ((releaseAction (Item.mk 1 none true)).snd = ReleaseAction.recycleToPool ↔
        (Item.mk 1 none true).hasOwner = true) ∧
      (releaseAction (Item.mk 1 none true)).fst.refcount = 0) :=
  ⟨rfl, release_last_handle (Item.mk 1 none true) rfl⟩

/-- C7: after `clear()` on an initialized pool the pool is reset to empty
capacity — `capacity()`, `unused_count()`, `inuse_count()` and
`enlarge_steps_done()` are 0 and `empty()` is true — and a subsequent
successful allocation requires the pool to grow again from zero (an allocate
whose underlying arena allocation fails returns null, and a successful
allocate has performed at least one growth step). -/
theorem clear_resets_pool (p : PoolImpl) :
    outer_capacity (outer_clear (some p)) = 0 ∧
    outer_unused_count (outer_clear (some p)) = 0 ∧
    outer_inuse_count (outer_clear (some p)) = 0 ∧
    outer_enlarge_steps_done (outer_clear (some p)) = 0 ∧
    outer_empty (outer_clear (some p)) = true ∧
    (∀ ok2, (pool_allocate (implNew p.m_enlarge_step p.m_max_size) false ok2).fst = none) ∧
    (∀ ok1 ok2 idx,
      (pool_allocate (implNew p.m_enlarge_step p.m_max_size) ok1 ok2).fst = some idx →
      1 ≤ (pool_allocate (implNew p.m_enlarge_step p.m_max_size) ok1 ok2).snd.enlarge_steps_done) := by
  refine ⟨rfl, rfl, rfl, rfl, rfl, ?_, ?_⟩
  · intro ok2
    by_cases heff : get_effective_enlarge_step (implNew p.m_enlarge_step p.m_max_size) = 0
    · rw [pool_allocate_of_safe_none _ _ _ _
        (allocate_safe_top_exhaust _ false ok2 rfl heff)]
    · rw [pool_allocate_of_safe_none _ _ _ _
        (allocate_safe_top_fail _ ok2 rfl heff)]
  · intro ok1 ok2 idx hsome
    by_cases heff : get_effective_enlarge_step (implNew p.m_enlarge_step p.m_max_size) = 0
    · rw [pool_allocate_of_safe_none _ _ _ _
        (allocate_safe_top_exhaust _ ok1 ok2 rfl heff)] at hsome
      cases hsome
    · cases ok1
      · rw [pool_allocate_of_safe_none _ _ _ _
          (allocate_safe_top_fail _ ok2 rfl heff)] at hsome
        cases hsome
      · have hgrow := allocate_safe_top_grow (implNew p.m_enlarge_step p.m_max_size) ok2 rfl heff
        have haren := pool_allocate_snd_arenas (implNew p.m_enlarge_step p.m_max_size) true ok2
        rw [hgrow] at haren
        have hmono := alloc_pop_arenas_mono
          (enlarge (implNew p.m_enlarge_step p.m_max_size)
            (get_effective_enlarge_step (implNew p.m_enlarge_step p.m_max_size)) true).snd ok2
        rw [enlarge_true] at hmono
        simp only [PoolImpl.enlarge_steps_done, haren]
        simpa using hmono

/-- Witness for C7 at a concrete initialized pool (initial size 1, growth
step 1, no maximum). -/
theorem clear_resets_pool_witness :
    outer_capacity (outer_clear (some (pool_init 1 1 0))) = 0 ∧
    outer_unused_count (outer_clear (some (pool_init 1 1 0))) = 0 ∧
    outer_inuse_count (outer_clear (some (pool_init 1 1 0))) = 0 ∧
    outer_enlarge_steps_done (outer_clear (some (pool_init 1 1 0))) = 0 ∧
    outer_empty (outer_clear (some (pool_init 1 1 0))) = true ∧
    (∀ ok2, (pool_allocate (implNew (pool_init 1 1 0).m_enlarge_step
        (pool_init 1 1 0).m_max_size) false ok2).fst = none) ∧
    (∀ ok1 ok2 idx,
      (pool_allocate (implNew (pool_init 1 1 0).m_enlarge_step
          (pool_init 1 1 0).m_max_size) ok1 ok2).fst = some idx →
      1 ≤ (pool_allocate (implNew (pool_init 1 1 0).m_enlarge_step
          (pool_init 1 1 0).m_max_size) ok1 ok2).snd.enlarge_steps_done) :=
  clear_resets_pool (pool_init 1 1 0)

/-- C4 counterexample: take the bounded pool of initial capacity 1
(`pool_init 1 0 0`), allocate once (succeeds), allocate again (fails and
marks the pool memory-exhausted), then drop the one live handle so the item
is recycled.  One slot is free again, yet `is_memory_exhausted()` still
reports true — the claim says it must report false. -/
theorem exhaustion_flag_counterexample :
    outer_unused_count (some (intrusive_ptr_release
      (pool_allocate (pool_allocate (pool_init 1 0 0) true true).snd true true).snd 0)) = 1 ∧
    outer_is_memory_exhausted (some (intrusive_ptr_release
      (pool_allocate (pool_allocate (pool_init 1 0 0) true true).snd true true).snd 0)) = true := by
  decide

/-- C4 amended: after a pool has been marked memory-exhausted, recycling one
item (dropping the last handle of an in-use item) leaves
`is_memory_exhausted()` reporting true — the flag is reset only by
`clear()`/re-initialization — but the next `allocate()` nevertheless succeeds
and returns the recycled slot. -/
theorem exhaustion_flag_amended (p : PoolImpl) (idx : Nat)
    (hrc : (getItem p.m_items idx).refcount = 1)
    (hown : (getItem p.m_items idx).hasOwner = true)
    (htrig : p.m_trigger_self_destruction = false)
    (hex : p.m_memory_exhausted = true) :
    (intrusive_ptr_release p idx).m_memory_exhausted = true ∧
    ∀ ok1 ok2, (pool_allocate (intrusive_ptr_release p idx) ok1 ok2).fst = some idx := by
  have hrel := release_recycles p idx hrc hown
  have hrec := recycle_eq { p with m_items := decRef p.m_items idx } idx htrig
  rw [hrel, hrec]
  refine ⟨hex, ?_⟩
  intro ok1 ok2
  apply pool_allocate_fst
  rw [allocate_safe_pop _ _ _ (by simp)]
  exact alloc_pop_fst _ _ idx (by simp)

/-- Witness for C4's amended theorem: the concrete exhausted bounded pool of
capacity 1 with its single item in use. -/
theorem exhaustion_flag_amended_witness :
    ((intrusive_ptr_release
        (pool_allocate (pool_allocate (pool_init 1 0 0) true true).snd true true).snd
        0).m_memory_exhausted = true) ∧
    ∀ ok1 ok2, (pool_allocate (intrusive_ptr_release
        (pool_allocate (pool_allocate (pool_init 1 0 0) true true).snd true true).snd
        0) ok1 ok2).fst = some 0 :=
  exhaustion_flag_amended
    (pool_allocate (pool_allocate (pool_init 1 0 0) true true).snd true true).snd 0
    (by decide) (by decide) (by decide) (by decide)

/-- C6 counterexample: the unbounded pool `pool_init 1 1 0` is already grown
to capacity `C = 1`.  A single `allocate()` keeps the in-use count at most
`C` (it ends at exactly 1 ≤ C) yet performs an additional arena growth:
`enlarge_steps_done()` goes from 1 to 2, because the allocate that empties
the free list proactively grows the pool. -/
theorem zero_growth_counterexample :
    (pool_allocate (pool_init 1 1 0) true true).snd.inuse_count ≤
      (pool_init 1 1 0).capacity ∧
    (pool_allocate (pool_init 1 1 0) true true).snd.enlarge_steps_done ≠
      (pool_init 1 1 0).enlarge_steps_done := by
  decide

/-- C8 counterexample: in the freshly initialized unbounded pool
`pool_init 2 1 0` (not bounded, not memory-exhausted), the item at slot 1 —
the tail of the free list — has reference count zero and a null free-list
next pointer, contradicting the claim that a refcount-zero item's next
pointer is non-null unless the pool is bounded or memory-exhausted. -/
theorem envelope_invariant_counterexample :
    (getItem (pool_init 2 1 0).m_items 1).refcount = 0 ∧
    (pool_init 2 1 0).is_bounded = false ∧
    (pool_init 2 1 0).is_memory_exhausted = false ∧
    (getItem (pool_init 2 1 0).m_items 1).next = none := by
  decide

end MemPool

namespace MemPool

/-- C5: if popping the free-list head leaves the free list empty
(`m_free_count` was 1 and the head's next pointer is null) and the pool's
growth step is non-zero, `allocate()` proactively grows the pool by one
effective step; if the effective step has shrunk to zero (max size reached)
or the underlying growth allocation fails, the pool is marked
memory-exhausted but the already-popped item is still returned — this
allocate succeeds even though the next one (with the allocator still
failing) returns null; if the growth succeeds, one more growth step has been
done. -/
theorem proactive_growth_graceful (p : PoolImpl) (idx : Nat) (ok2 : Bool)
    (hff : p.m_first_free_item = some idx)
    (hfree : p.m_free_count = 1)
    (hnext : (getItem p.m_items idx).next = none)
    (hstep : p.m_enlarge_step ≠ 0) :
    (pool_allocate p true ok2).fst = some idx ∧
    ((get_effective_enlarge_step p = 0 ∨ ok2 = false) →
      (pool_allocate p true ok2).snd.m_memory_exhausted = true ∧
      ∀ ok4, (pool_allocate (pool_allocate p true ok2).snd false ok4).fst = none) ∧
    (get_effective_enlarge_step p ≠ 0 → ok2 = true →
      (pool_allocate p true ok2).snd.enlarge_steps_done = p.enlarge_steps_done + 1) := by
  have hfc : p.m_free_count ≠ 0 := by rw [hfree]; exact one_ne_zero
  have hsafe := allocate_safe_pop p true ok2 hfc
  refine ⟨?_, ?_, ?_⟩
  · apply pool_allocate_fst
    rw [hsafe]
    exact alloc_pop_fst p ok2 idx hff
  · intro hor
    have hpop : alloc_pop p ok2 =
        (some idx,
          { p with
            m_items := setNext p.m_items idx none
            m_first_free_item := none
            m_memory_exhausted := true
            m_free_count := p.m_free_count - 1
            m_inuse_count := p.m_inuse_count + 1 }) := by
      by_cases heff : get_effective_enlarge_step p = 0
      · exact alloc_pop_exhaust p ok2 idx hff hnext hstep heff
      · have hok2 : ok2 = false := by
          rcases hor with h | h
          · exact absurd h heff
          · exact h
        subst hok2
        exact alloc_pop_grow_fail p idx hff hnext hstep heff
    have hall := pool_allocate_of_safe_some p true ok2 idx _ (hsafe.trans hpop)
    have hfc0 : (pool_allocate p true ok2).snd.m_free_count = 0 := by
      rw [hall]; simp [hfree]
    have heffs : get_effective_enlarge_step (pool_allocate p true ok2).snd =
        get_effective_enlarge_step p := by
      rw [hall]; exact get_effective_congr rfl rfl rfl
    refine ⟨by rw [hall], ?_⟩
    intro ok4
    by_cases heff : get_effective_enlarge_step p = 0
    · rw [pool_allocate_of_safe_none _ false ok4 _
        (allocate_safe_top_exhaust _ false ok4 hfc0 (by rw [heffs, heff]))]
    · rw [pool_allocate_of_safe_none _ false ok4 _
        (allocate_safe_top_fail _ ok4 hfc0 (by rw [heffs]; exact heff))]
  · intro heff hok2
    subst hok2
    have hpop := alloc_pop_grow p idx hff hnext hstep heff
    have hall := pool_allocate_of_safe_some p true true idx _ (hsafe.trans hpop)
    rw [hall]
    simp [PoolImpl.enlarge_steps_done]

end MemPool

namespace MemPool

/-- Witness for C5: the unbounded pool `pool_init 1 1 0` with one free slot,
allocating with the proactive growth's underlying allocation failing. -/
theorem proactive_growth_graceful_witness :
    (pool_allocate (pool_init 1 1 0) true false).fst = some 0 ∧
    ((get_effective_enlarge_step (pool_init 1 1 0) = 0 ∨ false = false) →
      (pool_allocate (pool_init 1 1 0) true false).snd.m_memory_exhausted = true ∧
      ∀ ok4, (pool_allocate (pool_allocate (pool_init 1 1 0) true false).snd
        false ok4).fst = none) ∧
    (get_effective_enlarge_step (pool_init 1 1 0) ≠ 0 → false = true →
      (pool_allocate (pool_init 1 1 0) true false).snd.enlarge_steps_done =
        (pool_init 1 1 0).enlarge_steps_done + 1) :=
  proactive_growth_graceful (pool_init 1 1 0) 0 false (by decide) (by decide)
    (by decide) (by decide)

end MemPool

namespace MemPool

/-! ## Slot-update wrappers -/

theorem length_setNext (items : List Item) (i : Nat) (v : Option Nat) :
    (setNext items i v).length = items.length := length_updItem ..

theorem length_addRef (items : List Item) (i : Nat) :
    (addRef items i).length = items.length := length_updItem ..

theorem length_decRef (items : List Item) (i : Nat) :
    (decRef items i).length = items.length := length_updItem ..

theorem getItem_setNext_ne {i j : Nat} (items : List Item) (v : Option Nat)
    (h : j ≠ i) : getItem (setNext items i v) j = getItem items j :=
  getItem_updItem_ne items _ h

theorem getItem_setNext_self {i : Nat} (items : List Item) (v : Option Nat)
    (h : i < items.length) :
    getItem (setNext items i v) i = { getItem items i with next := v } :=
  getItem_updItem_self items _ h

theorem getItem_addRef_ne {i j : Nat} (items : List Item) (h : j ≠ i) :
    getItem (addRef items i) j = getItem items j :=
  getItem_updItem_ne items _ h

theorem getItem_addRef_self {i : Nat} (items : List Item)
    (h : i < items.length) :
    getItem (addRef items i) i =
      { getItem items i with refcount := (getItem items i).refcount + 1 } :=
  getItem_updItem_self items _ h

theorem getItem_decRef_ne {i j : Nat} (items : List Item) (h : j ≠ i) :
    getItem (decRef items i) j = getItem items j :=
  getItem_updItem_ne items _ h

theorem getItem_decRef_self {i : Nat} (items : List Item)
    (h : i < items.length) :
    getItem (decRef items i) i =
      { getItem items i with refcount := (getItem items i).refcount - 1 } :=
  getItem_updItem_self items _ h

theorem setNext_setNext (items : List Item) (i : Nat) (v w : Option Nat) :
    setNext (setNext items i v) i w = setNext items i w := by
  by_cases h : i < items.length
  · unfold setNext updItem
    rw [getItem_eq (items.set i _) i, List.getElem?_set_self h]
    simp [List.set_set]
  · have hle : items.length ≤ i := Nat.le_of_not_lt h
    unfold setNext updItem
    rw [List.set_eq_of_length_le hle, List.set_eq_of_length_le hle]

theorem effective_of_step_zero {p : PoolImpl} (h : p.m_enlarge_step = 0) :
    get_effective_enlarge_step p = 0 := by
  unfold get_effective_enlarge_step
  rw [if_neg (by rw [h]; simp)]
  exact h

/-! ## Facts about the refcount-zero index set -/

theorem mem_freeIndices {p : PoolImpl} {i : Nat} :
    i ∈ freeIndices p ↔
      (i < p.m_items.length ∧ (getItem p.m_items i).refcount = 0) := by
  simp [freeIndices, List.mem_filter, List.mem_range]

theorem nodup_freeIndices (p : PoolImpl) : (freeIndices p).Nodup :=
  (List.nodup_range _).filter _

/-! ## The invariant holds after `init` -/

theorem pool_init_eq (i e m : Nat) :
    pool_init i e m =
      { m_enlarge_step := e
        m_max_size := m
        m_items := arenaItems 0 i
        m_arenas := [i]
        m_first_free_item := some 0
        m_memory_exhausted := false
        m_trigger_self_destruction := false
        m_free_count := i
        m_inuse_count := 0
        m_total_count := i } := by
  unfold pool_init
  rw [enlarge_true]
  simp [implNew]

theorem wf_init (i e m : Nat) (h : init_precond i e m) : WF (pool_init i e m) := by
  obtain ⟨hi, _⟩ := h
  rw [pool_init_eq]
  have hlen : (arenaItems 0 i).length = i := length_arenaItems 0 i
  have hget : ∀ k, k < i → getItem (arenaItems 0 i) k =
      ⟨0, if k + 1 < i then some (k + 1) else none, true⟩ := by
    intro k hk
    rw [getItem_arenaItems 0 hk]
    simp
  refine ⟨⟨List.range' 0 i, ?_, ?_, ?_, ?_⟩, ?_, ?_, ?_, ?_, ?_, ?_, ?_, rfl⟩
  · refine chain_seq _ i 0 hi ?_
    intro k hk
    rw [Nat.zero_add, hlen, hget k hk]
    exact ⟨hk, rfl⟩
  · have : freeIndices
        { m_enlarge_step := e, m_max_size := m, m_items := arenaItems 0 i,
          m_arenas := [i], m_first_free_item := some 0,
          m_memory_exhausted := false, m_trigger_self_destruction := false,
          m_free_count := i, m_inuse_count := 0, m_total_count := i } =
        List.range i := by
      unfold freeIndices
      simp only [hlen]
      refine List.filter_eq_self.mpr ?_
      intro a ha
      rw [hget a (List.mem_range.mp ha)]
      simp
    rw [this, List.range_eq_range']
  · simp
  · intro hne
    left
    rw [range'_getLast? i 0 hi, hlen, Nat.zero_add]
  · intro j hj hrc
    rw [hlen] at hj
    rw [hget j hj] at hrc ⊢
    simp at hrc
  · intro j hj
    rw [hlen] at hj
    rw [hget j hj]
  · exact hlen
  · simp
  · simp
  · intro hff
    cases hff
  · intro hfc
    simp only at hfc
    omega

end MemPool

namespace MemPool

/-- Changing only the refcount of an in-use slot (keeping it non-zero)
preserves the pool invariant. -/
theorem wf_items_refcount (p : PoolImpl) (idx : Nat) (items' : List Item)
    (h : WF p)
    (hrc : (getItem p.m_items idx).refcount ≠ 0)
    (hL : items'.length = p.m_items.length)
    (hne : ∀ j, j ≠ idx → getItem items' j = getItem p.m_items j)
    (hself_next : (getItem items' idx).next = (getItem p.m_items idx).next)
    (hself_own : (getItem items' idx).hasOwner = (getItem p.m_items idx).hasOwner)
    (hself_rc : (getItem items' idx).refcount ≠ 0) :
    WF { p with m_items := items' } := by
  obtain ⟨⟨fl, hchain, hperm, hlen, htail⟩, hinuse, howner, hit, hcnt, haren,
    hhead, hexh, htrig⟩ := h
  have hlt : idx < p.m_items.length := lt_of_refcount_ne_zero hrc
  have hnotfl : idx ∉ fl := by
    intro hmem
    exact hrc (mem_freeIndices.mp (hperm.mem_iff.mp hmem)).2
  have heff : get_effective_enlarge_step { p with m_items := items' } =
      get_effective_enlarge_step p := get_effective_congr rfl rfl rfl
  have hfree_eq : freeIndices { p with m_items := items' } = freeIndices p := by
    unfold freeIndices
    simp only [hL]
    refine List.filter_congr ?_
    intro j _
    by_cases hji : j = idx
    · subst hji
      simp [hself_rc, hrc]
    · rw [hne j hji]
  refine ⟨⟨fl, ?_, ?_, hlen, ?_⟩, ?_, ?_, ?_, hcnt, haren, hhead, ?_, htrig⟩
  · refine chain_congr hchain ?_ ?_
    · intro i hi
      rw [hL]
      exact chain_mem_lt hchain i hi
    · intro i hi
      rw [hne i (fun he => hnotfl (he ▸ hi))]
  · rw [hfree_eq]
    exact hperm
  · intro hne'
    rcases htail hne' with hcase | hcase
    · left
      rw [hL]
      exact hcase
    · right
      rw [heff]
      exact hcase
  · intro j hj hrcj
    rw [hL] at hj
    by_cases hji : j = idx
    · subst hji
      rw [hself_next]
      exact hinuse j hj hrc
    · rw [hne j hji] at hrcj ⊢
      exact hinuse j hj hrcj
  · intro j hj
    rw [hL] at hj
    by_cases hji : j = idx
    · subst hji
      rw [hself_own]
      exact howner j hj
    · rw [hne j hji]
      exact howner j hj
  · rw [hL]
    exact hit
  · intro h0
    rw [heff]
    exact hexh h0

/-- Copying a live handle (`intrusive_ptr_add_ref`) preserves the invariant. -/
theorem wf_copy (p : PoolImpl) (idx : Nat) (h : WF p)
    (hrc : (getItem p.m_items idx).refcount ≠ 0) :
    WF { p with m_items := addRef p.m_items idx } := by
  have hlt : idx < p.m_items.length := lt_of_refcount_ne_zero hrc
  refine wf_items_refcount p idx _ h hrc (length_addRef ..)
    (fun j hj => getItem_addRef_ne _ hj) ?_ ?_ ?_
  · rw [getItem_addRef_self _ hlt]
  · rw [getItem_addRef_self _ hlt]
  · rw [getItem_addRef_self _ hlt]
    show (getItem p.m_items idx).refcount + 1 ≠ 0
    simp

/-- Dropping a live handle (`intrusive_ptr_release`) preserves the
invariant. -/
theorem wf_release (p : PoolImpl) (idx : Nat) (h : WF p)
    (hrc : (getItem p.m_items idx).refcount ≠ 0) :
    WF (intrusive_ptr_release p idx) := by
  obtain ⟨⟨fl, hchain, hperm, hlen, htail⟩, hinuse, howner, hit, hcnt, haren,
    hhead, hexh, htrig⟩ := h
  have hlt : idx < p.m_items.length := lt_of_refcount_ne_zero hrc
  rcases Nat.lt_or_ge (getItem p.m_items idx).refcount 2 with hlt2 | hge2
  · -- the last handle: the item is recycled into the pool
    have hrc1 : (getItem p.m_items idx).refcount = 1 := by omega
    have hown : (getItem p.m_items idx).hasOwner = true := howner idx hlt
    rw [release_recycles p idx hrc1 hown,
      recycle_eq { p with m_items := decRef p.m_items idx } idx htrig]
    have hL1 : (decRef p.m_items idx).length = p.m_items.length := length_decRef ..
    have hFL : (setNext (decRef p.m_items idx) idx p.m_first_free_item).length =
        p.m_items.length := by
      rw [length_setNext, hL1]
    have hFself : getItem (setNext (decRef p.m_items idx) idx p.m_first_free_item) idx =
        ⟨0, p.m_first_free_item, (getItem p.m_items idx).hasOwner⟩ := by
      rw [getItem_setNext_self _ _ (by rw [hL1]; exact hlt),
        getItem_decRef_self _ hlt, hrc1]
    have hFne : ∀ j, j ≠ idx →
        getItem (setNext (decRef p.m_items idx) idx p.m_first_free_item) j =
          getItem p.m_items j := by
      intro j hj
      rw [getItem_setNext_ne _ _ hj, getItem_decRef_ne _ hj]
    have hnotfl : idx ∉ fl := by
      intro hmem
      exact hrc (mem_freeIndices.mp (hperm.mem_iff.mp hmem)).2
    have hfree_lt : p.m_free_count < p.m_items.length := by
      have h1 : (freeIndices p).length < (List.range p.m_items.length).length :=
        length_filter_lt (List.mem_range.mpr hlt) (by simp [hrc])
      rw [List.length_range] at h1
      rw [← hperm.length_eq] at h1
      rw [← hlen]
      exact h1
    have hinuse_pos : 1 ≤ p.m_inuse_count := by
      rw [hit] at hfree_lt
      omega
    refine ⟨⟨idx :: fl, ?_, ?_, ?_, ?_⟩, ?_, ?_, ?_, ?_, haren, ?_, ?_, htrig⟩
    · refine Chain.cons (by rw [hFL]; exact hlt) ?_
      rw [hFself]
      refine chain_congr hchain ?_ ?_
      · intro i hi
        rw [hFL]
        exact chain_mem_lt hchain i hi
      · intro i hi
        rw [hFne i (fun he => hnotfl (he ▸ hi))]
    · have hpermR : (freeIndices
          { p with
            m_items := setNext (decRef p.m_items idx) idx p.m_first_free_item
            m_first_free_item := some idx
            m_free_count := p.m_free_count + 1
            m_inuse_count := p.m_inuse_count - 1 }).Perm (idx :: freeIndices p) := by
        unfold freeIndices
        simp only [hFL]
        refine filter_perm_flip (List.nodup_range _) (List.mem_range.mpr hlt)
          ?_ ?_ ?_
        · rw [hFself]
          rfl
        · simp [hrc]
        · intro j _ hj
          rw [hFne j hj]
      exact (hperm.cons idx).trans hpermR.symm
    · simp [hlen]
    · intro _
      cases fl with
      | nil =>
        right
        have hfc0 : p.m_free_count = 0 := by
          rw [← hlen]
          rfl
        exact (get_effective_congr rfl rfl rfl).trans (hexh hfc0)
      | cons a t =>
        rw [List.getLast?_cons_cons]
        rcases htail (List.cons_ne_nil a t) with hcase | hcase
        · left
          rw [hFL]
          exact hcase
        · right
          exact (get_effective_congr rfl rfl rfl).trans hcase
    · intro j hj hrcj
      rw [hFL] at hj
      by_cases hji : j = idx
      · subst hji
        rw [hFself] at hrcj
        exact absurd rfl hrcj
      · rw [hFne j hji] at hrcj ⊢
        exact hinuse j hj hrcj
    · intro j hj
      rw [hFL] at hj
      by_cases hji : j = idx
      · subst hji
        rw [hFself]
        exact howner j hj
      · rw [hFne j hji]
        exact howner j hj
    · rw [hFL]
      exact hit
    · simp only
      omega
    · intro hsome
      cases hsome
    · intro h0
      simp only at h0
      exact absurd h0 (by omega)
  · -- more handles remain: only the refcount is decremented
    rw [release_decs p idx hge2]
    refine wf_items_refcount p idx _ ⟨⟨fl, hchain, hperm, hlen, htail⟩, hinuse,
      howner, hit, hcnt, haren, hhead, hexh, htrig⟩ hrc (length_decRef ..)
      (fun j hj => getItem_decRef_ne _ hj) ?_ ?_ ?_
    · rw [getItem_decRef_self _ hlt]
    · rw [getItem_decRef_self _ hlt]
    · rw [getItem_decRef_self _ hlt]
      show (getItem p.m_items idx).refcount - 1 ≠ 0
      omega

end MemPool

namespace MemPool

theorem popped_len (items : List Item) (idx : Nat) :
    (addRef (setNext items idx none) idx).length = items.length := by
  rw [length_addRef, length_setNext]

theorem popped_self (items : List Item) (idx : Nat) (hlt : idx < items.length) :
    getItem (addRef (setNext items idx none) idx) idx =
      ⟨(getItem items idx).refcount + 1, none, (getItem items idx).hasOwner⟩ := by
  rw [getItem_addRef_self _ (by rw [length_setNext]; exact hlt),
    getItem_setNext_self _ _ hlt]

theorem popped_ne (items : List Item) (idx j : Nat) (hj : j ≠ idx) :
    getItem (addRef (setNext items idx none) idx) j = getItem items j := by
  rw [getItem_addRef_ne _ hj, getItem_setNext_ne _ _ hj]

theorem chain_cons_head {items : List Item} {ff : Option Nat} {a : Nat}
    {t : List Nat} (hc : Chain items ff (a :: t)) : ff = some a := by
  cases hc
  rfl

theorem chain_nil_ptr {items : List Item} {ff : Option Nat}
    (hc : Chain items ff []) : ff = none := by
  cases hc
  rfl

/-- An `allocate()` call (with the underlying arena allocations succeeding)
preserves the pool invariant. -/
theorem wf_alloc (p : PoolImpl) (h : WF p) : WF (pool_allocate p true true).snd := by
  obtain ⟨⟨fl, hchain, hperm, hlen, htail⟩, hinuse, howner, hit, hcnt, haren,
    hhead, hexh, htrig⟩ := h
  by_cases hfc : p.m_free_count = 0
  · -- the free list is empty: the effective step is necessarily 0 and the
    -- call only sets the exhausted flag
    have heff := hexh hfc
    rw [pool_allocate_of_safe_none _ _ _ _
      (allocate_safe_top_exhaust p true true hfc heff)]
    refine ⟨⟨fl, hchain, hperm, hlen, ?_⟩, hinuse, howner, hit, hcnt, haren,
      ?_, ?_, htrig⟩
    · intro hne
      rcases htail hne with hc | hc
      · left
        exact hc
      · right
        exact (get_effective_congr rfl rfl rfl).trans hc
    · intro _
      right
      rfl
    · intro h0
      exact (get_effective_congr rfl rfl rfl).trans (hexh h0)
  · -- the free list is non-empty: the head is popped
    have hflne : fl ≠ [] := by
      intro h0
      rw [h0] at hlen
      exact hfc hlen.symm
    obtain ⟨idx, hff⟩ : ∃ idx, p.m_first_free_item = some idx := by
      cases hffc : p.m_first_free_item with
      | none =>
        rw [hffc] at hchain
        exact absurd (chain_none hchain) hflne
      | some i => exact ⟨i, rfl⟩
    rw [hff] at hchain
    obtain ⟨rest, hfl, hlt, hchain2⟩ := chain_some hchain
    subst hfl
    have hsafe := allocate_safe_pop p true true hfc
    have hrc0 : (getItem p.m_items idx).refcount = 0 :=
      (mem_freeIndices.mp (hperm.mem_iff.mp (List.mem_cons_self idx rest))).2
    have hnd : (idx :: rest).Nodup := (hperm.nodup_iff).mpr (nodup_freeIndices p)
    have hnotin : idx ∉ rest := (List.nodup_cons.mp hnd).1
    have hlen2 : rest.length + 1 = p.m_free_count := by simpa using hlen
    cases hre : rest with
    | cons r rest2 =>
      -- the free list is still non-empty after the pop: no growth happens
      have hnext : (getItem p.m_items idx).next = some r :=
        chain_cons_head (hre ▸ hchain2)
      rw [hnext] at hchain2
      have hpop := alloc_pop_no_grow p true idx r hff hnext
      have hall := pool_allocate_of_safe_some p true true idx _ (hsafe.trans hpop)
      rw [hall]
      refine ⟨⟨rest, ?_, ?_, ?_, ?_⟩, ?_, ?_, ?_, ?_, haren, ?_, ?_, htrig⟩
      · refine chain_congr hchain2 ?_ ?_
        · intro i hi
          rw [popped_len]
          exact chain_mem_lt hchain2 i hi
        · intro i hi
          rw [popped_ne _ _ i (fun he => hnotin (by rw [← he]; exact hi))]
      · have hstep1 : (freeIndices p).Perm (idx ::
            freeIndices { p with
              m_items := addRef (setNext p.m_items idx none) idx
              m_first_free_item := some r
              m_free_count := p.m_free_count - 1
              m_inuse_count := p.m_inuse_count + 1 }) := by
          unfold freeIndices
          simp only [popped_len]
          refine filter_perm_flip (List.nodup_range _) (List.mem_range.mpr hlt)
            ?_ ?_ ?_
          · simp [hrc0]
          · rw [popped_self _ _ hlt]
            rfl
          · intro j _ hj
            rw [popped_ne _ _ j hj]
        exact (hperm.trans hstep1).cons_inv
      · simp only
        omega
      · intro hne2
        have hgl : (idx :: rest).getLast? = rest.getLast? := by
          rw [hre]
          exact List.getLast?_cons_cons
        rcases htail (List.cons_ne_nil idx rest) with hc | hc
        · left
          rw [← hgl, popped_len]
          exact hc
        · right
          exact (get_effective_congr rfl rfl rfl).trans hc
      · intro j hj hrcj
        rw [popped_len] at hj
        by_cases hji : j = idx
        · subst hji
          rw [popped_self _ _ hlt]
        · rw [popped_ne _ _ j hji] at hrcj ⊢
          exact hinuse j hj hrcj
      · intro j hj
        rw [popped_len] at hj
        by_cases hji : j = idx
        · subst hji
          rw [popped_self _ _ hlt]
          exact howner j hj
        · rw [popped_ne _ _ j hji]
          exact howner j hj
      · rw [popped_len]
        exact hit
      · simp only
        omega
      · intro hsome
        cases hsome
      · intro h0
        simp only at h0
        exfalso
        have : rest.length = 0 := by omega
        rw [hre] at this
        simp at this
    | nil =>
      -- the pop empties the free list
      have hnext : (getItem p.m_items idx).next = none :=
        chain_nil_ptr (hre ▸ hchain2)
      have hfree1 : p.m_free_count = 1 := by
        rw [hre] at hlen2
        simpa using hlen2.symm
      have honly : ∀ j, j < p.m_items.length →
          (getItem p.m_items j).refcount = 0 → j = idx := by
        intro j hj hrcj
        have hmem : j ∈ idx :: rest :=
          hperm.mem_iff.mpr (mem_freeIndices.mpr ⟨hj, hrcj⟩)
        rw [hre] at hmem
        simpa using hmem
      -- the state after popping with no new arena (flag value `b`)
      have key : ∀ b : Bool, (p.m_enlarge_step = 0 ∨ b = true) →
          get_effective_enlarge_step p = 0 →
          WF { p with
            m_items := addRef (setNext p.m_items idx none) idx
            m_first_free_item := none
            m_memory_exhausted := b
            m_free_count := p.m_free_count - 1
            m_inuse_count := p.m_inuse_count + 1 } := by
        intro b hb heff0
        refine ⟨⟨[], Chain.nil, ?_, ?_, ?_⟩, ?_, ?_, ?_, ?_, haren, ?_, ?_, htrig⟩
        · have : freeIndices { p with
              m_items := addRef (setNext p.m_items idx none) idx
              m_first_free_item := (none : Option Nat)
              m_memory_exhausted := b
              m_free_count := p.m_free_count - 1
              m_inuse_count := p.m_inuse_count + 1 } = [] := by
            unfold freeIndices
            simp only [popped_len]
            refine List.filter_eq_nil_iff.mpr ?_
            intro j hj
            rw [List.mem_range] at hj
            by_cases hji : j = idx
            · subst hji
              rw [popped_self _ _ hlt]
              simp
            · rw [popped_ne _ _ j hji]
              simp only [beq_iff_eq]
              intro hrcj
              exact hji (honly j hj hrcj)
          rw [this]
        · show ([] : List Nat).length = p.m_free_count - 1
          rw [hfree1]
          simp
        · intro hne2
          exact absurd rfl hne2
        · intro j hj hrcj
          rw [popped_len] at hj
          by_cases hji : j = idx
          · subst hji
            rw [popped_self _ _ hlt]
          · rw [popped_ne _ _ j hji] at hrcj ⊢
            exact hinuse j hj hrcj
        · intro j hj
          rw [popped_len] at hj
          by_cases hji : j = idx
          · subst hji
            rw [popped_self _ _ hlt]
            exact howner j hj
          · rw [popped_ne _ _ j hji]
            exact howner j hj
        · rw [popped_len]
          exact hit
        · simp only
          omega
        · intro _
          rcases hb with hb | hb
          · left
            exact hb
          · right
            exact hb
        · intro _
          exact (get_effective_congr rfl rfl rfl).trans heff0
      by_cases hstep : p.m_enlarge_step = 0
      · have hpop := alloc_pop_bounded p true idx hff hnext hstep
        have hall := pool_allocate_of_safe_some p true true idx _ (hsafe.trans hpop)
        rw [hall]
        exact key p.m_memory_exhausted (Or.inl hstep) (effective_of_step_zero hstep)
      · by_cases heff : get_effective_enlarge_step p = 0
        · have hpop := alloc_pop_exhaust p true idx hff hnext hstep heff
          have hall := pool_allocate_of_safe_some p true true idx _ (hsafe.trans hpop)
          rw [hall]
          exact key true (Or.inr rfl) heff
        · -- proactive growth succeeds: a fresh arena becomes the free list
          have hpop := alloc_pop_grow p idx hff hnext hstep heff
          have hall := pool_allocate_of_safe_some p true true idx _ (hsafe.trans hpop)
          rw [hall]
          have htot_pos : p.m_total_count ≠ 0 := by
            rw [← hit]
            omega
          have haren_ne : p.m_arenas.isEmpty = false := by
            refine List.isEmpty_eq_false.mpr ?_
            intro h0
            rw [h0] at haren
            simp at haren
            exact htot_pos haren.symm
          have hidx_last : idx = p.m_items.length - 1 := by
            rcases htail (List.cons_ne_nil idx rest) with hc | hc
            · rw [hre] at hc
              simpa using hc
            · exact absurd hc heff
          have hitems_eq :
              (if p.m_arenas.isEmpty then
                p.m_items ++ arenaItems p.m_items.length (get_effective_enlarge_step p)
              else
                setNext
                  (p.m_items ++ arenaItems p.m_items.length (get_effective_enlarge_step p))
                  (p.m_items.length - 1) (some p.m_items.length)) =
              setNext
                (p.m_items ++ arenaItems p.m_items.length (get_effective_enlarge_step p))
                idx (some p.m_items.length) := by
            rw [haren_ne]
            simp only [Bool.false_eq_true, if_false]
            rw [← hidx_last]
          rw [hitems_eq, setNext_setNext]
          have hA1len :
              (p.m_items ++ arenaItems p.m_items.length (get_effective_enlarge_step p)).length =
                p.m_items.length + get_effective_enlarge_step p := by
            simp [length_arenaItems]
          have hFL :
              (addRef (setNext
                (p.m_items ++ arenaItems p.m_items.length (get_effective_enlarge_step p))
                idx none) idx).length =
              p.m_items.length + get_effective_enlarge_step p := by
            rw [popped_len, hA1len]
          have hFself :
              getItem (addRef (setNext
                (p.m_items ++ arenaItems p.m_items.length (get_effective_enlarge_step p))
                idx none) idx) idx =
              ⟨1, none, (getItem p.m_items idx).hasOwner⟩ := by
            rw [popped_self _ _ (by rw [hA1len]; omega),
              getItem_append_left hlt, hrc0]
          have hFold : ∀ j, j ≠ idx → j < p.m_items.length →
              getItem (addRef (setNext
                (p.m_items ++ arenaItems p.m_items.length (get_effective_enlarge_step p))
                idx none) idx) j = getItem p.m_items j := by
            intro j hj hjlt
            rw [popped_ne _ _ j hj, getItem_append_left hjlt]
          have hFnew : ∀ k, k < get_effective_enlarge_step p →
              getItem (addRef (setNext
                (p.m_items ++ arenaItems p.m_items.length (get_effective_enlarge_step p))
                idx none) idx) (p.m_items.length + k) =
              ⟨0, if k + 1 < get_effective_enlarge_step p then
                    some (p.m_items.length + k + 1) else none, true⟩ := by
            intro k hk
            have hne2 : p.m_items.length + k ≠ idx := by omega
            rw [popped_ne _ _ _ hne2, getItem_append_right,
              getItem_arenaItems _ hk]
          have hspos : 0 < get_effective_enlarge_step p := Nat.pos_of_ne_zero heff
          refine ⟨⟨List.range' p.m_items.length (get_effective_enlarge_step p),
            ?_, ?_, ?_, ?_⟩, ?_, ?_, ?_, ?_, ?_, ?_, ?_, htrig⟩
          · refine chain_seq _ (get_effective_enlarge_step p) p.m_items.length
              hspos ?_
            intro k hk
            refine ⟨by rw [hFL]; omega, ?_⟩
            rw [hFnew k hk]
          · refine (List.perm_ext_iff_of_nodup (List.nodup_range' _ _)
              (nodup_freeIndices _)).mpr ?_
            intro a
            rw [List.mem_range'_1, mem_freeIndices]
            simp only [hFL]
            constructor
            · rintro ⟨hle, hlt2⟩
              refine ⟨by omega, ?_⟩
              have ha : p.m_items.length + (a - p.m_items.length) = a := by omega
              rw [← ha, hFnew (a - p.m_items.length) (by omega)]
            · rintro ⟨halt, harc⟩
              by_cases hlow : a < p.m_items.length
              · exfalso
                by_cases hai : a = idx
                · subst hai
                  rw [hFself] at harc
                  exact one_ne_zero harc
                · rw [hFold a hai hlow] at harc
                  exact hai (honly a hlow harc)
              · exact ⟨by omega, by omega⟩
          · rw [List.length_range']
            simp only
            omega
          · intro _
            left
            rw [range'_getLast? (get_effective_enlarge_step p) p.m_items.length hspos]
            simp only [hFL]
          · intro j hj hrcj
            simp only [hFL] at hj
            by_cases hlow : j < p.m_items.length
            · by_cases hji : j = idx
              · subst hji
                rw [hFself]
              · rw [hFold j hji hlow] at hrcj ⊢
                exact hinuse j hlow hrcj
            · exfalso
              have hj2 : p.m_items.length + (j - p.m_items.length) = j := by omega
              rw [← hj2, hFnew (j - p.m_items.length) (by omega)] at hrcj
              exact hrcj rfl
          · intro j hj
            simp only [hFL] at hj
            by_cases hlow : j < p.m_items.length
            · by_cases hji : j = idx
              · subst hji
                rw [hFself]
                exact howner j hlow
              · rw [hFold j hji hlow]
                exact howner j hlow
            · have hj2 : p.m_items.length + (j - p.m_items.length) = j := by omega
              rw [← hj2, hFnew (j - p.m_items.length) (by omega)]
          · rw [hFL, hit]
          · simp only
            omega
          · rw [List.sum_append]
            simp [haren]
          · intro hsome
            cases hsome
          · intro h0
            simp only at h0
            exact absurd h0 (by omega)

end MemPool

namespace MemPool

/-- Every pool operation preserves the invariant. -/
theorem wf_step {p q : PoolImpl} (h : WF p) (hs : Step p q) : WF q := by
  cases hs with
  | alloc => exact wf_alloc p h
  | copy idx hrc => exact wf_copy p idx h hrc
  | drop idx hrc => exact wf_release p idx h hrc

theorem wf_reachableFrom {p0 p : PoolImpl} (h0 : WF p0)
    (hr : ReachableFrom p0 p) : WF p := by
  induction hr with
  | refl => exact h0
  | step _ hs ih => exact wf_step ih hs

theorem wf_reachable {p : PoolImpl} (h : Reachable p) : WF p := by
  obtain ⟨i, e, m, hpre, hr⟩ := h
  exact wf_reachableFrom (wf_init i e m hpre) hr

theorem wf_ff_some (p : PoolImpl) (h : WF p) (hfc : p.m_free_count ≠ 0) :
    ∃ idx, p.m_first_free_item = some idx := by
  obtain ⟨⟨fl, hchain, _, hlen, _⟩, _⟩ := h
  cases hffc : p.m_first_free_item with
  | none =>
    rw [hffc] at hchain
    rw [chain_none hchain] at hlen
    exact absurd hlen.symm hfc
  | some i => exact ⟨i, rfl⟩

/-- Growing by the effective step never pushes the total past the maximum. -/
theorem total_add_effective_le (p : PoolImpl) (hmax : 0 < p.m_max_size)
    (hle : p.m_total_count ≤ p.m_max_size) :
    p.m_total_count + get_effective_enlarge_step p ≤ p.m_max_size := by
  unfold get_effective_enlarge_step
  split
  · omega
  · rename_i hcond
    rcases Nat.eq_zero_or_pos p.m_enlarge_step with h0 | hpos
    · omega
    · have : ¬(p.m_total_count + p.m_enlarge_step > p.m_max_size) := by
        intro hgt
        exact hcond ⟨hpos, hmax, hgt⟩
      omega

/-- The wrapping step of `allocate()` changes only `m_items`. -/
theorem pool_allocate_snd_counters (p : PoolImpl) (ok1 ok2 : Bool) :
    (pool_allocate p ok1 ok2).snd.m_enlarge_step =
      (allocate_safe_get_recycled_item p ok1 ok2).snd.m_enlarge_step ∧
    (pool_allocate p ok1 ok2).snd.m_max_size =
      (allocate_safe_get_recycled_item p ok1 ok2).snd.m_max_size ∧
    (pool_allocate p ok1 ok2).snd.m_total_count =
      (allocate_safe_get_recycled_item p ok1 ok2).snd.m_total_count ∧
    (pool_allocate p ok1 ok2).snd.m_free_count =
      (allocate_safe_get_recycled_item p ok1 ok2).snd.m_free_count ∧
    (pool_allocate p ok1 ok2).snd.m_inuse_count =
      (allocate_safe_get_recycled_item p ok1 ok2).snd.m_inuse_count := by
  rcases hsafe : allocate_safe_get_recycled_item p ok1 ok2 with ⟨r, q⟩
  cases r <;> simp [pool_allocate, hsafe]

/-- The one-step effect of the pop path on the bookkeeping fields: some
`growth` (0 when no new arena was made) is added to the free and total
counters, and a growth happens only with a non-zero growth step, by exactly
the effective step. -/
theorem alloc_pop_shape (p : PoolImpl) (ok2 : Bool) (idx : Nat)
    (hff : p.m_first_free_item = some idx) :
    ∃ growth : Nat,
      (alloc_pop p ok2).snd.m_enlarge_step = p.m_enlarge_step ∧
      (alloc_pop p ok2).snd.m_max_size = p.m_max_size ∧
      (alloc_pop p ok2).snd.m_inuse_count = p.m_inuse_count + 1 ∧
      (alloc_pop p ok2).snd.m_free_count = p.m_free_count - 1 + growth ∧
      (alloc_pop p ok2).snd.m_total_count = p.m_total_count + growth ∧
      ((alloc_pop p ok2).snd.m_arenas =
        if growth = 0 then p.m_arenas else p.m_arenas ++ [growth]) ∧
      (growth = 0 ∨
        (p.m_enlarge_step ≠ 0 ∧ growth = get_effective_enlarge_step p ∧
          ok2 = true ∧ (getItem p.m_items idx).next = none)) := by
  rcases hnext : (getItem p.m_items idx).next with _ | r
  · by_cases hstep : p.m_enlarge_step = 0
    · refine ⟨0, ?_⟩
      rw [alloc_pop_bounded p ok2 idx hff hnext hstep]
      simp
    · by_cases heff : get_effective_enlarge_step p = 0
      · refine ⟨0, ?_⟩
        rw [alloc_pop_exhaust p ok2 idx hff hnext hstep heff]
        simp
      · cases ok2
        · refine ⟨0, ?_⟩
          rw [alloc_pop_grow_fail p idx hff hnext hstep heff]
          simp
        · refine ⟨get_effective_enlarge_step p, ?_⟩
          rw [alloc_pop_grow p idx hff hnext hstep heff]
          refine ⟨rfl, rfl, rfl, rfl, rfl, ?_, Or.inr ⟨hstep, rfl, rfl, rfl⟩⟩
          rw [if_neg heff]
  · refine ⟨0, ?_⟩
    rw [alloc_pop_no_grow p ok2 idx r hff hnext]
    simp

/-- The one-step effect of a full `allocate()` call on the bookkeeping
fields of an invariant-satisfying pool. -/
theorem pool_allocate_shape (p : PoolImpl) (h : WF p) :
    ∃ growth : Nat,
      (pool_allocate p true true).snd.m_enlarge_step = p.m_enlarge_step ∧
      (pool_allocate p true true).snd.m_max_size = p.m_max_size ∧
      (pool_allocate p true true).snd.m_total_count = p.m_total_count + growth ∧
      (pool_allocate p true true).snd.m_free_count = p.m_free_count - 1 + growth ∧
      ((pool_allocate p true true).snd.m_inuse_count = p.m_inuse_count ∨
        (pool_allocate p true true).snd.m_inuse_count = p.m_inuse_count + 1) ∧
      ((pool_allocate p true true).snd.m_arenas =
        if growth = 0 then p.m_arenas else p.m_arenas ++ [growth]) ∧
      (growth = 0 ∨
        (p.m_enlarge_step ≠ 0 ∧ growth = get_effective_enlarge_step p)) ∧
      (growth ≠ 0 → p.m_free_count = 1) := by
  by_cases hfc : p.m_free_count = 0
  · have heff := h.exhausted_step hfc
    refine ⟨0, ?_⟩
    rw [pool_allocate_of_safe_none _ _ _ _
      (allocate_safe_top_exhaust p true true hfc heff)]
    simp [hfc]
  · obtain ⟨idx, hff⟩ := wf_ff_some p h hfc
    have hsafe := allocate_safe_pop p true true hfc
    obtain ⟨growth, h1, h2, h3, h4, h5, h6, h7⟩ := alloc_pop_shape p true idx hff
    obtain ⟨c1, c2, c3, c4, c5⟩ := pool_allocate_snd_counters p true true
    have haren := pool_allocate_snd_arenas p true true
    rw [hsafe] at c1 c2 c3 c4 c5 haren
    refine ⟨growth, ?_, ?_, ?_, ?_, ?_, ?_, ?_, ?_⟩
    · rw [c1, h1]
    · rw [c2, h2]
    · rw [c3, h5]
    · rw [c4, h4]
    · right
      rw [c5, h3]
    · rw [haren, h6]
    · rcases h7 with h7 | h7
      · exact Or.inl h7
      · exact Or.inr ⟨h7.1, h7.2.1⟩
    · intro hg
      rcases h7 with h7 | h7
      · exact absurd h7 hg
      · obtain ⟨⟨fl, hchain, _, hlen, _⟩, _⟩ := h
        rw [hff] at hchain
        obtain ⟨rest, hfl, _, hchain2⟩ := chain_some hchain
        rw [h7.2.2.2] at hchain2
        rw [chain_none hchain2] at hfl
        rw [hfl] at hlen
        simpa using hlen.symm

/-- Case split: `intrusive_ptr_release` either merely decrements the refcount or
recycles the item. -/
theorem release_cases (p : PoolImpl) (idx : Nat) :
    intrusive_ptr_release p idx = { p with m_items := decRef p.m_items idx } ∨
    intrusive_ptr_release p idx =
      recycle { p with m_items := decRef p.m_items idx } idx := by
  unfold intrusive_ptr_release
  by_cases h0 : (getItem (decRef p.m_items idx) idx).refcount = 0
  · by_cases h1 : (getItem (decRef p.m_items idx) idx).hasOwner = true
    · right
      simp [h0, h1]
    · left
      have h1f : (getItem (decRef p.m_items idx) idx).hasOwner = false := by
        cases hv : (getItem (decRef p.m_items idx) idx).hasOwner
        · rfl
        · exact absurd hv h1
      simp [h0, h1f]
  · left
    simp [h0]

/-- Handle drop changes no configuration, capacity or arena bookkeeping. -/
theorem release_preserves (p : PoolImpl) (idx : Nat) :
    (intrusive_ptr_release p idx).m_enlarge_step = p.m_enlarge_step ∧
    (intrusive_ptr_release p idx).m_max_size = p.m_max_size ∧
    (intrusive_ptr_release p idx).m_total_count = p.m_total_count ∧
    (intrusive_ptr_release p idx).m_arenas = p.m_arenas ∧
    (intrusive_ptr_release p idx).m_inuse_count ≤ p.m_inuse_count := by
  rcases release_cases p idx with hcase | hcase
  · rw [hcase]
    exact ⟨rfl, rfl, rfl, rfl, Nat.le_refl _⟩
  · rw [hcase]
    refine ⟨rfl, rfl, rfl, ?_, ?_⟩
    · unfold recycle
      split <;> rfl
    · exact Nat.sub_le p.m_inuse_count 1

end MemPool

namespace MemPool

/-- C1: for every sequence of allocate, handle-drop/recycle and growth
operations on an initialized pool, `unused_count() + inuse_count() ==
capacity()` holds after every operation completes. -/
theorem conservation_after_every_operation (p : PoolImpl) (h : Reachable p) :
    p.unused_count + p.inuse_count = p.capacity :=
  (wf_reachable h).counts

/-- Witness for C1 at the freshly initialized pool `pool_init 1 1 0`. -/
theorem conservation_after_every_operation_witness :
    (pool_init 1 1 0).unused_count + (pool_init 1 1 0).inuse_count =
      (pool_init 1 1 0).capacity :=
  conservation_after_every_operation (pool_init 1 1 0)
    ⟨1, 1, 0, by decide, ReachableFrom.refl⟩

/-- C2: a pool constructed with growth step 0 and initial capacity `C` has
`capacity() = C` in every reachable state; the first `C` allocations
succeed, and the next `allocate()` returns null. -/
theorem bounded_pool_never_grows (C : Nat) (hC : 0 < C) :
    (∀ p, ReachableFrom (pool_init C 0 0) p → PoolImpl.capacity p = C) ∧
    (∀ k, k < C → (pool_allocate (allocN (pool_init C 0 0) k) true true).fst ≠ none) ∧
    (pool_allocate (allocN (pool_init C 0 0) C) true true).fst = none := by
  have hpre : init_precond C 0 0 := ⟨hC, Or.inl rfl⟩
  have hcap : ∀ p, ReachableFrom (pool_init C 0 0) p →
      p.m_enlarge_step = 0 ∧ p.m_total_count = C := by
    intro p hr
    induction hr with
    | refl =>
      rw [pool_init_eq]
      exact ⟨rfl, rfl⟩
    | step hr2 hs ih =>
      obtain ⟨ih1, ih2⟩ := ih
      cases hs with
      | alloc =>
        have hwf := wf_reachableFrom (wf_init C 0 0 hpre) hr2
        obtain ⟨g, e1, e2, e3, e4, e5, e6, e7, e8⟩ := pool_allocate_shape _ hwf
        have hg0 : g = 0 := by
          rcases e7 with hcase | hcase
          · exact hcase
          · exact absurd ih1 hcase.1
        refine ⟨by rw [e1, ih1], ?_⟩
        rw [e3, hg0, Nat.add_zero, ih2]
      | copy idx hrc => exact ⟨ih1, ih2⟩
      | drop idx hrc =>
        obtain ⟨r1, _, r3, _, _⟩ := release_preserves _ idx
        exact ⟨by rw [r1]; exact ih1, by rw [r3]; exact ih2⟩
  have hstate : ∀ k, k ≤ C →
      ReachableFrom (pool_init C 0 0) (allocN (pool_init C 0 0) k) ∧
      (allocN (pool_init C 0 0) k).m_free_count = C - k := by
    intro k
    induction k with
    | zero =>
      intro _
      refine ⟨ReachableFrom.refl, ?_⟩
      show (pool_init C 0 0).m_free_count = C - 0
      rw [pool_init_eq]
      show C = C - 0
      omega
    | succ k ih =>
      intro hk1
      obtain ⟨hreach, hfree⟩ := ih (by omega)
      have hwf := wf_reachableFrom (wf_init C 0 0 hpre) hreach
      have hcfg := hcap _ hreach
      have hfc : (allocN (pool_init C 0 0) k).m_free_count ≠ 0 := by
        rw [hfree]
        omega
      obtain ⟨g, e1, e2, e3, e4, e5, e6, e7, e8⟩ := pool_allocate_shape _ hwf
      have hg0 : g = 0 := by
        rcases e7 with hcase | hcase
        · exact hcase
        · exact absurd hcfg.1 hcase.1
      refine ⟨ReachableFrom.step hreach (Step.alloc _), ?_⟩
      show (pool_allocate (allocN (pool_init C 0 0) k) true true).snd.m_free_count
        = C - (k + 1)
      rw [e4, hg0, hfree]
      omega
  refine ⟨fun p hr => (hcap p hr).2, ?_, ?_⟩
  · intro k hk
    obtain ⟨hreach, hfree⟩ := hstate k (by omega)
    have hwf := wf_reachableFrom (wf_init C 0 0 hpre) hreach
    have hfc : (allocN (pool_init C 0 0) k).m_free_count ≠ 0 := by
      rw [hfree]
      omega
    obtain ⟨idx, hff⟩ := wf_ff_some _ hwf hfc
    have hfst := pool_allocate_fst _ true true idx
      (by rw [allocate_safe_pop _ _ _ hfc]; exact alloc_pop_fst _ _ idx hff)
    rw [hfst]
    simp
  · obtain ⟨hreach, hfree⟩ := hstate C (Nat.le_refl C)
    have hcfg := hcap _ hreach
    have hfc : (allocN (pool_init C 0 0) C).m_free_count = 0 := by
      rw [hfree]
      omega
    have heff : get_effective_enlarge_step (allocN (pool_init C 0 0) C) = 0 :=
      effective_of_step_zero hcfg.1
    rw [pool_allocate_of_safe_none _ _ _ _
      (allocate_safe_top_exhaust _ true true hfc heff)]

/-- Witness for C2 at `C = 1`. -/
theorem bounded_pool_never_grows_witness :
    (∀ p, ReachableFrom (pool_init 1 0 0) p → PoolImpl.capacity p = 1) ∧
    (∀ k, k < 1 → (pool_allocate (allocN (pool_init 1 0 0) k) true true).fst ≠ none) ∧
    (pool_allocate (allocN (pool_init 1 0 0) 1) true true).fst = none :=
  bounded_pool_never_grows 1 (by decide)

/-- C3: with growth step `S > 0` and maximum size `M > 0`, `capacity()`
never exceeds `M` in any reachable state; whenever a growth of `S` slots
would overshoot `M`, the effective growth step is reduced to
`M - capacity()`, which is smaller than `S` and lands the pool exactly on
`M`. -/
theorem max_size_budget_respected (i S M : Nat) (hS : 0 < S) (hM : 0 < M)
    (hpre : init_precond i S M) :
    (∀ p, ReachableFrom (pool_init i S M) p → PoolImpl.capacity p ≤ M) ∧
    (∀ p, ReachableFrom (pool_init i S M) p → M < p.m_total_count + S →
      get_effective_enlarge_step p = M - p.m_total_count ∧
      p.m_total_count + get_effective_enlarge_step p = M ∧
      get_effective_enlarge_step p < S) := by
  have hinv : ∀ p, ReachableFrom (pool_init i S M) p →
      p.m_enlarge_step = S ∧ p.m_max_size = M ∧ p.m_total_count ≤ M := by
    intro p hr
    induction hr with
    | refl =>
      rw [pool_init_eq]
      refine ⟨rfl, rfl, ?_⟩
      rcases hpre.2 with hcase | hcase
      · omega
      · exact hcase.1
    | step hr2 hs ih =>
      obtain ⟨ih1, ih2, ih3⟩ := ih
      cases hs with
      | alloc =>
        have hwf := wf_reachableFrom (wf_init i S M hpre) hr2
        obtain ⟨g, e1, e2, e3, e4, e5, e6, e7, e8⟩ := pool_allocate_shape _ hwf
        refine ⟨by rw [e1, ih1], by rw [e2, ih2], ?_⟩
        rw [e3]
        rcases e7 with hcase | hcase
        · omega
        · have hle := total_add_effective_le _ (by rw [ih2]; exact hM)
            (by rw [ih2]; exact ih3)
          rw [← hcase.2, ih2] at hle
          exact hle
      | copy idx hrc => exact ⟨ih1, ih2, ih3⟩
      | drop idx hrc =>
        obtain ⟨r1, r2, r3, _, _⟩ := release_preserves _ idx
        exact ⟨by rw [r1]; exact ih1, by rw [r2]; exact ih2,
          by rw [r3]; exact ih3⟩
  refine ⟨fun p hr => (hinv p hr).2.2, ?_⟩
  intro p hr hover
  obtain ⟨h1, h2, h3⟩ := hinv p hr
  have heq : get_effective_enlarge_step p = M - p.m_total_count := by
    unfold get_effective_enlarge_step
    rw [h1, h2]
    rw [if_pos ⟨hS, hM, hover⟩]
  refine ⟨heq, ?_, ?_⟩
  · rw [heq]
    omega
  · rw [heq]
    omega

/-- Witness for C3 at `i = 1`, `S = 1`, `M = 1`. -/
theorem max_size_budget_respected_witness :
    (∀ p, ReachableFrom (pool_init 1 1 1) p → PoolImpl.capacity p ≤ 1) ∧
    (∀ p, ReachableFrom (pool_init 1 1 1) p → 1 < p.m_total_count + 1 →
      get_effective_enlarge_step p = 1 - p.m_total_count ∧
      p.m_total_count + get_effective_enlarge_step p = 1 ∧
      get_effective_enlarge_step p < 1) :=
  max_size_budget_respected 1 1 1 (by decide) (by decide) (by decide)

/-- C6 amended: for an unbounded pool already grown to capacity
`C = capacity()`, every sequence of allocate and handle-drop operations
that keeps the in-use count strictly below `C` after every operation
performs no additional arena growth: `enlarge_steps_done()` stays
constant. (As stated, with in-use allowed to reach `C`, the claim is false:
the allocate that empties the free list grows proactively — see the
counterexample.) -/
theorem zero_growth_after_warmup (i e : Nat) (hpre : init_precond i e 0)
    (p q : PoolImpl) (hwarm : ReachableFrom (pool_init i e 0) p)
    (hseq : BoundedSeq (PoolImpl.capacity p) p q) :
    PoolImpl.enlarge_steps_done q = PoolImpl.enlarge_steps_done p := by
  have haux : ∀ r, BoundedSeq p.capacity p r →
      r.m_arenas = p.m_arenas ∧ r.m_total_count = p.m_total_count ∧
      ReachableFrom (pool_init i e 0) r := by
    intro r hseq2
    induction hseq2 with
    | refl => exact ⟨rfl, rfl, hwarm⟩
    | step h1 h2 hbound ih =>
      obtain ⟨ih1, ih2, ih3⟩ := ih
      cases h2 with
      | alloc =>
        rename_i s
        have hwf := wf_reachableFrom (wf_init i e 0 hpre) ih3
        obtain ⟨g, e1, e2, e3, e4, e5, e6, e7, e8⟩ := pool_allocate_shape _ hwf
        have hwfr := wf_alloc _ hwf
        have hg0 : g = 0 := by
          by_contra hg
          have hfree1 : s.m_free_count = 1 := e8 hg
          have hcntq := hwf.counts
          have hcntr := hwfr.counts
          rw [e3, e4] at hcntr
          have hin : (pool_allocate s true true).snd.m_inuse_count =
              s.m_total_count := by omega
          rw [hin, ih2] at hbound
          exact absurd hbound (by
            show ¬(p.m_total_count < PoolImpl.capacity p)
            unfold PoolImpl.capacity
            omega)
        refine ⟨?_, ?_, ReachableFrom.step ih3 (Step.alloc _)⟩
        · rw [e6, if_pos hg0, ih1]
        · rw [e3, hg0, Nat.add_zero, ih2]
      | copy idx hrc =>
        exact ⟨ih1, ih2, ReachableFrom.step ih3 (Step.copy _ idx hrc)⟩
      | drop idx hrc =>
        obtain ⟨_, _, r3, r4, _⟩ := release_preserves _ idx
        exact ⟨by rw [r4]; exact ih1, by rw [r3]; exact ih2,
          ReachableFrom.step ih3 (Step.drop _ idx hrc)⟩
  obtain ⟨h1, _, _⟩ := haux q hseq
  unfold PoolImpl.enlarge_steps_done
  rw [h1]

/-- Witness for C6's amended theorem: the empty operation sequence on the
warmed-up pool `pool_init 1 1 0`. -/
theorem zero_growth_after_warmup_witness :
    PoolImpl.enlarge_steps_done (pool_init 1 1 0) =
      PoolImpl.enlarge_steps_done (pool_init 1 1 0) :=
  zero_growth_after_warmup 1 1 (by decide) (pool_init 1 1 0) (pool_init 1 1 0)
    ReachableFrom.refl BoundedSeq.refl

/-- C8 amended: in every reachable state of an initialized pool, every
refcount-zero item is linked into the free list (it is reachable from
`m_first_free_item` by following next pointers; the tail's next pointer is
null), the free-list head itself is null only when the pool is bounded or
memory-exhausted, and every in-use item (refcount non-zero) has a null next
pointer. -/
theorem envelope_invariant_amended (p : PoolImpl) (h : Reachable p) :
    (∃ fl, Chain p.m_items p.m_first_free_item fl ∧
      ∀ i, i < p.m_items.length → (getItem p.m_items i).refcount = 0 → i ∈ fl) ∧
    (p.m_first_free_item = none →
      p.is_bounded = true ∨ p.is_memory_exhausted = true) ∧
    (∀ i, i < p.m_items.length → (getItem p.m_items i).refcount ≠ 0 →
      (getItem p.m_items i).next = none) := by
  obtain ⟨⟨fl, hchain, hperm, _, _⟩, hinuse, _, _, _, _, hhead, _, _⟩ :=
    wf_reachable h
  refine ⟨⟨fl, hchain, ?_⟩, ?_, hinuse⟩
  · intro i hi hrc
    exact hperm.mem_iff.mpr (mem_freeIndices.mpr ⟨hi, hrc⟩)
  · intro hnone
    rcases hhead hnone with hcase | hcase
    · left
      simp [PoolImpl.is_bounded, hcase]
    · right
      simp [PoolImpl.is_memory_exhausted, hcase]

/-- Witness for C8's amended theorem at the pool `pool_init 1 1 0`. -/
theorem envelope_invariant_amended_witness :
    (∃ fl, Chain (pool_init 1 1 0).m_items (pool_init 1 1 0).m_first_free_item fl ∧
      ∀ i, i < (pool_init 1 1 0).m_items.length →
        (getItem (pool_init 1 1 0).m_items i).refcount = 0 → i ∈ fl) ∧
    ((pool_init 1 1 0).m_first_free_item = none →
      (pool_init 1 1 0).is_bounded = true ∨
        (pool_init 1 1 0).is_memory_exhausted = true) ∧
    (∀ i, i < (pool_init 1 1 0).m_items.length →
      (getItem (pool_init 1 1 0).m_items i).refcount ≠ 0 →
      (getItem (pool_init 1 1 0).m_items i).next = none) :=
  envelope_invariant_amended (pool_init 1 1 0)
    ⟨1, 1, 0, by decide, ReachableFrom.refl⟩

end MemPool
